import Mathlib

/-!
Verification of the Extendy project-storage / virtual-file-system layer.

This file shallowly embeds the storage core of the repository:
  * the two path normalizers (`src/services/fileSystem.ts` `normalizePath`
    and `src/utils/storageV2.ts` `normalizePath`),
  * the v2 in-memory facade state of `FileSystemService` and its mutating
    operations (writeFile, readFile, deletePath, renamePath, clear,
    createFolder, project CRUD) together with the events they emit,
  * the chat segment log (`appendMessage` from the chat hook), and
  * the v1-to-v2 migration orchestrator (`migrateToV2IfNeeded`,
    `migrateProject`) over an explicit storage-failure model.

JavaScript strings are modelled as Lean `String`, JS numbers holding
counts/sizes/timestamps as `Nat`, JS `Map` as an association list with
insert-or-replace-in-place semantics, and fallible asynchronous storage
operations as a state-plus-exception monad with a failure oracle.
-/

namespace Extendy

/-! ## Path normalizers

`fileSystem.ts` lines 41-54:

```
function normalizePath(p: string): string {
  const trimmed = p.replace(/^[\\/]+/, '')
  const parts: string[] = []
  for (const seg of trimmed.split(/[\\/]+/)) {
    if (!seg || seg === '.') continue
    if (seg === '..') { parts.pop(); continue }
    parts.push(seg)
  }
  return parts.join('/')
}
```

`storageV2.ts` lines 285-295:

```
function normalizePath(p: string): string {
  if (!p) return '';
  let s = String(p).replace(/\\/g, '/');
  s = s.replace(/^\/+/, '');
  const parts: string[] = [];
  for (const seg of s.split('/')) {
    if (!seg || seg === '.') continue;
    parts.push(seg);
  }
  return parts.join('/');
}
```

We split on single separator characters, which produces empty segments
where the source regex `[\\/]+` collapses runs; both loops drop empty
segments (`!seg`), so the two splitting styles agree after filtering.
-/

def isSep (c : Char) : Bool := c = '/' || c = '\\'

def isSlash (c : Char) : Bool := c = '/'

/-- Split a character list at every character satisfying `sep`; adjacent
separators yield empty segments (like the JS `String.split` on a single
character). -/
def splitOnPred (sep : Char → Bool) : List Char → List (List Char)
  | [] => [[]]
  | c :: cs =>
    let r := splitOnPred sep cs
    if sep c then [] :: r
    else (c :: r.headD []) :: r.tail

/-- One iteration of the segment loop of the fileSystem.ts normalizer:
drop empty and `.` segments, `..` pops (`Array.prototype.pop` on an empty
array is a no-op, hence `dropLast`), others are pushed. -/
def fsStep (acc : List (List Char)) (seg : List Char) : List (List Char) :=
  if seg = [] ∨ seg = ['.'] then acc
  else if seg = ['.', '.'] then acc.dropLast
  else acc ++ [seg]

/-- One iteration of the segment loop of the storageV2.ts normalizer:
drop empty and `.` segments, push everything else (`..` included). -/
def keepStep (acc : List (List Char)) (seg : List Char) : List (List Char) :=
  if seg = [] ∨ seg = ['.'] then acc
  else acc ++ [seg]

/-- `Array.prototype.join('/')`. -/
def joinSlash : List (List Char) → List Char
  | [] => []
  | [p] => p
  | p :: q :: rest => p ++ '/' :: joinSlash (q :: rest)

/-- The normalizer of `src/services/fileSystem.ts` (lines 41-54). -/
def normalizePathFS (p : String) : String :=
  let trimmed := p.data.dropWhile isSep
  ⟨joinSlash ((splitOnPred isSep trimmed).foldl fsStep [])⟩

/-- `\\` to `/`, as in `String.replace(/\\/g, '/')`. -/
def bslashToSlash (c : Char) : Char := if c = '\\' then '/' else c

/-- The normalizer of `src/utils/storageV2.ts` (lines 285-295). -/
def normalizePathV2 (p : String) : String :=
  if p = "" then ""
  else
    let s := (p.data.map bslashToSlash).dropWhile isSlash
    ⟨joinSlash ((splitOnPred isSlash s).foldl keepStep [])⟩

/-- Modelled from the spec (section 4.1): backslashes converted to
slashes, leading slashes stripped (as empty segments, dropped), `.`
segments dropped, `..` segments pop the preceding segment clamped at
root, segments rejoined with single slashes. This definition follows the
words of the spec and is compared against the source normalizers. -/
def normalizePathSpec (p : String) : String :=
  ⟨joinSlash ((splitOnPred isSlash (p.data.map bslashToSlash)).foldl fsStep [])⟩

/-! ## JavaScript `Map` modelled as an association list

`Map.get`, `Map.has`, `Map.delete`, and `Map.set` (which replaces the
value in place for an existing key, preserving insertion order, and
appends otherwise). -/

def jsGet {κ α : Type} [DecidableEq κ] : List (κ × α) → κ → Option α
  | [], _ => none
  | kv :: m, k => if kv.1 = k then some kv.2 else jsGet m k

def jsHas {κ α : Type} [DecidableEq κ] (m : List (κ × α)) (k : κ) : Bool :=
  (jsGet m k).isSome

def jsSet {κ α : Type} [DecidableEq κ] (m : List (κ × α)) (k : κ) (v : α) :
    List (κ × α) :=
  if jsHas m k then m.map (fun kv => if kv.1 = k then (k, v) else kv)
  else m ++ [(k, v)]

def jsDelete {κ α : Type} [DecidableEq κ] : List (κ × α) → κ → List (κ × α)
  | [], _ => []
  | kv :: m, k => if kv.1 = k then jsDelete m k else kv :: jsDelete m k

/-- `Array.from(new Set(xs))`: keep the first occurrence of each element,
in insertion order. -/
def dedupKeepFirst {α : Type} [DecidableEq α] : List α → List α
  | [] => []
  | x :: xs => x :: (dedupKeepFirst xs).filter (fun y => ¬ y = x)

/-! ## Data model of the v2 facade (`fileSystem.ts` / `storageV2.ts`)

Timestamps (`Date.now()`) are modelled as a `Nat` parameter `t`; the
source may observe slightly different values for multiple `now()` calls
inside one synchronous operation, which no claim depends on. Sizes use
`String.length` like the source (`content.length`). The optional
`preview` metadata field is never touched by the modelled operations and
is omitted. -/

structure V2FileRecord where
  projectId : String
  path : String
  content : String
  contentType : Option String
  size : Nat
  updatedAt : Nat
deriving DecidableEq

structure ProjectStats where
  fileCount : Nat
  totalBytes : Nat
  lastOpenedAt : Nat
deriving DecidableEq

structure ProjectMetadata where
  entryHtmlPath : String
  openEditors : List String
  expandedPaths : List String
  explicitDirs : List String
  activeFilePath : Option String
deriving DecidableEq

structure ProjectDoc where
  id : String
  name : String
  createdAt : Nat
  updatedAt : Nat
  stats : ProjectStats
  metadata : ProjectMetadata
deriving DecidableEq

structure ProjectMetaIndexItem where
  id : String
  name : String
  createdAt : Nat
  updatedAt : Nat
  lastOpenedAt : Nat
deriving DecidableEq

/-- The v1-shaped project meta produced by `getProjectList`. -/
structure ProjectMeta where
  id : String
  name : String
  createdAt : Nat
  lastOpenedAt : Nat
  activeFilePath : Option String
  version : Nat
deriving DecidableEq

/-- In-memory v2 caches of `FileSystemService` (fileSystem.ts lines
205-210): the project summary index, the `ProjectDoc` cache, the
per-project file maps keyed by normalized path, and the active project
pointer. The fire-and-forget persistence writes mutate only the backing
store, never this synchronous state, and are not part of it. -/
structure FacadeState where
  v2Index : List ProjectMetaIndexItem
  v2Docs : List (String × ProjectDoc)
  v2Files : List (String × List (String × V2FileRecord))
  v2ActiveProjectId : Option String
deriving DecidableEq

def emptyFacade : FacadeState :=
  { v2Index := [], v2Docs := [], v2Files := [], v2ActiveProjectId := none }

/-- Event Bus emissions performed by the facade operations (eventBus.ts
`Payloads`); `tree:changed` is a debounce-derived event and not emitted
directly by any facade operation. -/
inductive FsEvent where
  | fileCreated (projectId path : String)
  | fileUpdated (projectId path : String) (size : Nat)
  | fileDeleted (projectId path : String)
  | fileMoved (projectId fromPath toPath : String)
  | projectActiveChanged (projectId : Option String)
  | projectListChanged (projects : List ProjectMeta)
  | projectMetaChanged (projectId : String) (activeFilePath : Option String)
deriving DecidableEq

/-- Stable insertion into a list sorted by `lastOpenedAt` descending. -/
def insertByLastOpenedDesc (x : ProjectMeta) : List ProjectMeta → List ProjectMeta
  | [] => [x]
  | y :: ys =>
    if y.lastOpenedAt ≤ x.lastOpenedAt then x :: y :: ys
    else y :: insertByLastOpenedDesc x ys

/-- Stable sort by `lastOpenedAt` descending, modelling
`Array.prototype.sort((a, b) => b.lastOpenedAt - a.lastOpenedAt)`. -/
def sortByLastOpenedDesc : List ProjectMeta → List ProjectMeta
  | [] => []
  | x :: xs => insertByLastOpenedDesc x (sortByLastOpenedDesc xs)

/-- Stable insertion into a list sorted by string length descending. -/
def insertByLenDesc (x : String) : List String → List String
  | [] => [x]
  | y :: ys =>
    if y.length ≤ x.length then x :: y :: ys
    else y :: insertByLenDesc x ys

/-- Stable sort by length descending, modelling
`Array.prototype.sort((a, b) => b.length - a.length)`. -/
def sortByLenDesc : List String → List String
  | [] => []
  | x :: xs => insertByLenDesc x (sortByLenDesc xs)

/-- Collapse runs of slashes, modelling `replace(/\/+/g, '/')`. -/
def collapseSlashesL : List Char → List Char
  | [] => []
  | [c] => [c]
  | c :: d :: rest =>
    if c = '/' && d = '/' then collapseSlashesL (d :: rest)
    else c :: collapseSlashesL (d :: rest)

def collapseSlashes (s : String) : String := ⟨collapseSlashesL s.data⟩

/-- `FileSystemService.getProjectList` on the v2 path (lines 490-505). -/
def getProjectListV2 (st : FacadeState) : List ProjectMeta :=
  sortByLastOpenedDesc (st.v2Index.map (fun it =>
    { id := it.id, name := it.name, createdAt := it.createdAt,
      lastOpenedAt := it.lastOpenedAt,
      activeFilePath := (jsGet st.v2Docs it.id).bind (·.metadata.activeFilePath),
      version := 2 }))

/-- `FileSystemService.v2DefaultDoc` (lines 395-411). -/
def v2DefaultDoc (id name : String) (t : Nat) : ProjectDoc :=
  { id := id, name := if name = "" then "Project" else name,
    createdAt := t, updatedAt := t,
    stats := { fileCount := 0, totalBytes := 0, lastOpenedAt := t },
    metadata := { entryHtmlPath := "index.html", openEditors := [],
                  expandedPaths := [], explicitDirs := [],
                  activeFilePath := none } }

/-- `FileSystemService.v2ComputeStats` (lines 413-421). -/
def v2ComputeStats (files : List (String × V2FileRecord)) : Nat × Nat :=
  files.foldl (fun acc f => (acc.1 + 1, acc.2 + f.2.size)) (0, 0)

/-- The starter file set of `createProject` (lines 590-609); the
`Object.entries` iteration order is insertion order. -/
def starterFiles : List (String × String) :=
  [("index.html", "<!doctype html>\n<html>\n<head>\n  <meta charset=\"utf-8\" />\n  <meta name=\"viewport\" content=\"width=device-width, initial-scale=1\" />\n  <title>Preview</title>\n  <link rel=\"stylesheet\" href=\"style.css\">\n</head>\n<body>\n  <h1>Hello from Extendy Preview</h1>\n  <script src=\"main.js\"></script>\n</body>\n</html>"),
   ("style.css", "body\x7bfont-family:system-ui,Segoe UI,Roboto,Arial,sans-serif;padding:24px\x7d"),
   ("main.js", "console.log(\"Extendy project ready\");")]

/-- `String.prototype.startsWith`, written over the character lists so
that it evaluates inside the kernel. -/
def jsStartsWith (s pre : String) : Bool := pre.data.isPrefixOf s.data

/-- The "update stats" block shared by `writeFile` and `deletePath`
(fileSystem.ts lines 904-911 and 1044-1051): when the doc is cached,
recompute `fileCount`/`totalBytes` from the file map and bump
`updatedAt`. -/
def recomputeStatsDocs (docs : List (String × ProjectDoc)) (id : String)
    (files1 : List (String × V2FileRecord)) (t : Nat) :
    List (String × ProjectDoc) :=
  match jsGet docs id with
  | some doc =>
    let stats := v2ComputeStats files1
    jsSet docs id { doc with
      stats := { doc.stats with fileCount := stats.1, totalBytes := stats.2 },
      updatedAt := t }
  | none => docs

/-- The explicit-dirs removal block of the `deletePath` directory branch
(fileSystem.ts lines 1031-1040). -/
def deleteDirDocsUpdate (docs : List (String × ProjectDoc)) (id p : String)
    (t : Nat) : List (String × ProjectDoc) :=
  match jsGet docs id with
  | some doc =>
    let before := dedupKeepFirst doc.metadata.explicitDirs
    let after := before.filter (fun d => ¬ normalizePathV2 d = p)
    if ¬ after.length = before.length then
      jsSet docs id { doc with
        metadata := { doc.metadata with explicitDirs := after },
        updatedAt := t }
    else docs
  | none => docs

/-- The explicit-dirs rewrite block of the `renamePath` folder branch
(fileSystem.ts lines 1122-1133). -/
def renameDirsDocsUpdate (docs : List (String × ProjectDoc)) (id src dst : String)
    (t : Nat) : List (String × ProjectDoc) :=
  match jsGet docs id with
  | some doc =>
    let dirs := dedupKeepFirst (doc.metadata.explicitDirs.map normalizePathV2)
    if src ∈ dirs then
      let dirs1 := dirs.filter (fun d => ¬ d = src)
      let dirs2 := if dst ∈ dirs1 then dirs1 else dirs1 ++ [dst]
      jsSet docs id { doc with
        metadata := { doc.metadata with explicitDirs := dirs2 },
        updatedAt := t }
    else docs
  | none => docs

/-- The trailing timestamp-only doc update of `renamePath` (fileSystem.ts
lines 1146-1150): it does NOT recompute the stats. -/
def touchDocs (docs : List (String × ProjectDoc)) (id : String) (t : Nat) :
    List (String × ProjectDoc) :=
  match jsGet docs id with
  | some doc => jsSet docs id { doc with updatedAt := t }
  | none => docs

/-- `projectId || this.v2ActiveProjectId` (an empty string is falsy). -/
def resolveProjectId (st : FacadeState) (projectId : Option String) : Option String :=
  match projectId with
  | some id => if id = "" then st.v2ActiveProjectId else some id
  | none => st.v2ActiveProjectId

/-- Update the first list element satisfying `p`, as the source does via
`findIndex` followed by an indexed assignment. -/
def updateFirst {α : Type} (p : α → Bool) (f : α → α) : List α → List α
  | [] => []
  | x :: xs => if p x then f x :: xs else x :: updateFirst p f xs

/-- `FileSystemService.v2CreateProject` (lines 576-650); `nanoid` is
modelled by the caller-supplied fresh id `newId`. The fire-and-forget
persistence calls touch only the backing store. -/
def v2CreateProject (st : FacadeState) (newId name : String) (withStarter : Bool)
    (t : Nat) : FacadeState × List FsEvent :=
  let item : ProjectMetaIndexItem :=
    { id := newId, name := if name = "" then "Untitled" else name,
      createdAt := t, updatedAt := t, lastOpenedAt := t }
  let index1 := st.v2Index ++ [item]
  let doc0 := v2DefaultDoc newId item.name t
  let fileMap : List (String × V2FileRecord) :=
    if withStarter then
      starterFiles.foldl (fun m pc =>
        jsSet m (normalizePathV2 pc.1)
          { projectId := newId, path := normalizePathV2 pc.1, content := pc.2,
            contentType := none, size := pc.2.length, updatedAt := t }) []
    else []
  let doc :=
    if withStarter then
      let stats := v2ComputeStats fileMap
      { doc0 with
        stats := { doc0.stats with fileCount := stats.1, totalBytes := stats.2 },
        metadata := { doc0.metadata with activeFilePath := some "index.html" } }
    else doc0
  let st1 : FacadeState :=
    { v2Index := index1, v2Docs := jsSet st.v2Docs newId doc,
      v2Files := jsSet st.v2Files newId fileMap,
      v2ActiveProjectId := some newId }
  (st1, [FsEvent.projectListChanged (getProjectListV2 st1),
         FsEvent.projectActiveChanged (some newId)])

/-- `FileSystemService.renameProject`, v2 path (lines 652-668). -/
def renameProjectV2 (st : FacadeState) (id newName : String) (t : Nat) :
    FacadeState × List FsEvent :=
  if (st.v2Index.find? (fun e => e.id = id)).isNone then (st, [])
  else
    let index1 := updateFirst (fun e => e.id = id)
      (fun e => { e with name := newName, updatedAt := t }) st.v2Index
    let docs1 := match jsGet st.v2Docs id with
      | some doc => jsSet st.v2Docs id { doc with name := newName, updatedAt := t }
      | none => st.v2Docs
    let st1 := { st with v2Index := index1, v2Docs := docs1 }
    (st1, [FsEvent.projectListChanged (getProjectListV2 st1)])

/-- `FileSystemService.deleteProject`, v2 path (lines 685-712). -/
def deleteProjectV2 (st : FacadeState) (id : String) : FacadeState × List FsEvent :=
  let wasActive := st.v2ActiveProjectId = some id
  let files1 := jsDelete st.v2Files id
  let docs1 := jsDelete st.v2Docs id
  let index1 := st.v2Index.filter (fun e => ¬ e.id = id)
  let active1 := if wasActive then index1.head?.map (·.id) else st.v2ActiveProjectId
  let st1 : FacadeState :=
    { v2Index := index1, v2Docs := docs1, v2Files := files1,
      v2ActiveProjectId := active1 }
  (st1, [FsEvent.projectListChanged (getProjectListV2 st1),
         FsEvent.projectActiveChanged active1])

/-- `FileSystemService.v2SetActiveProject` (lines 764-783). The
`v2EnsureProjectDoc` call is fire-and-forget (asynchronous) and does not
take part in the synchronous state transition. -/
def setActiveProjectV2 (st : FacadeState) (id : Option String) (t : Nat) :
    FacadeState × List FsEvent :=
  let st1 := { st with v2ActiveProjectId := id }
  let st2 := match id with
    | some i =>
      let index1 := updateFirst (fun e => e.id = i)
        (fun e => { e with lastOpenedAt := t, updatedAt := t }) st1.v2Index
      { st1 with v2Index := index1 }
    | none => st1
  (st2, [FsEvent.projectActiveChanged id])

/-- `FileSystemService.setActiveFilePath`, v2 path (lines 785-800). -/
def setActiveFilePathV2 (st : FacadeState) (path : Option String) (t : Nat) :
    FacadeState × List FsEvent :=
  match st.v2ActiveProjectId with
  | none => (st, [])
  | some id =>
    match jsGet st.v2Docs id with
    | none => (st, [])
    | some doc =>
      let ap := match path with
        | some p => if p = "" then none else some (normalizePathV2 p)
        | none => none
      let doc1 := { doc with
        metadata := { doc.metadata with activeFilePath := ap }, updatedAt := t }
      ({ st with v2Docs := jsSet st.v2Docs id doc1 },
       [FsEvent.projectMetaChanged id ap])

/-- `FileSystemService.readFile`, v2 path (lines 867-875). -/
def readFileV2 (st : FacadeState) (path : String) (projectId : Option String) :
    Option String :=
  match resolveProjectId st projectId with
  | none => none
  | some id =>
    ((jsGet st.v2Files id).bind
      (fun files => jsGet files (normalizePathV2 path))).map (·.content)

/-- `FileSystemService.writeFile`, v2 path (lines 886-923); the `hint`
parameter is unused on this path. -/
def writeFileV2 (st : FacadeState) (path content : String)
    (projectId : Option String) (t : Nat) : FacadeState × List FsEvent :=
  match resolveProjectId st projectId with
  | none => (st, [])
  | some id =>
    let p := normalizePathV2 path
    let files := (jsGet st.v2Files id).getD []
    let prev := jsGet files p
    let newRec : V2FileRecord :=
      { projectId := id, path := p, content := content, contentType := none,
        size := content.length, updatedAt := t }
    let files1 := jsSet files p newRec
    let v2Files1 := jsSet st.v2Files id files1
    let docs1 := recomputeStatsDocs st.v2Docs id files1 t
    let ev := match prev with
      | none => FsEvent.fileCreated id p
      | some _ => FsEvent.fileUpdated id p newRec.size
    ({ st with v2Files := v2Files1, v2Docs := docs1 }, [ev])

/-- `FileSystemService.createFolder`, v2 path (lines 976-994). -/
def createFolderV2 (st : FacadeState) (path : String) (t : Nat) :
    FacadeState × List FsEvent :=
  match st.v2ActiveProjectId with
  | none => (st, [])
  | some id =>
    let p := normalizePathV2 path
    match jsGet st.v2Docs id with
    | none => (st, [])
    | some doc =>
      let dirs := dedupKeepFirst (doc.metadata.explicitDirs.map normalizePathV2)
      if p ∈ dirs then (st, [])
      else
        let doc1 := { doc with
          metadata := { doc.metadata with explicitDirs := dirs ++ [p] },
          updatedAt := t }
        ({ st with v2Docs := jsSet st.v2Docs id doc1 },
         [FsEvent.fileCreated id p])

/-- `FileSystemService.deletePath`, v2 path (lines 1006-1059). -/
def deletePathV2 (st : FacadeState) (path : String) (t : Nat) :
    FacadeState × List FsEvent :=
  match st.v2ActiveProjectId with
  | none => (st, [])
  | some id =>
    let p := normalizePathV2 path
    let files := (jsGet st.v2Files id).getD []
    let branch :
        List (String × V2FileRecord) × List String × List (String × ProjectDoc) :=
      if jsHas files p then (jsDelete files p, [p], st.v2Docs)
      else
        let toDelete := (files.map (·.1)).filter
          (fun k => k = p || jsStartsWith k (p ++ "/"))
        let files1 := toDelete.foldl (fun m k => jsDelete m k) files
        (files1, toDelete, deleteDirDocsUpdate st.v2Docs id p t)
    let files1 := branch.1
    let deleted := branch.2.1
    let docsA := branch.2.2
    let docs1 := recomputeStatsDocs docsA id files1 t
    ({ st with v2Files := jsSet st.v2Files id files1, v2Docs := docs1 },
     deleted.map (fun dp => FsEvent.fileDeleted id dp))

/-- `FileSystemService.renamePath`, v2 path (lines 1090-1153). The
non-null assertion `files.get(oldPath)!` of the source is modelled by a
match whose `none` arm is unreachable (every affected path is a key). -/
def renamePathV2 (st : FacadeState) (fromPath toPath : String) (t : Nat) :
    FacadeState × List FsEvent :=
  match st.v2ActiveProjectId with
  | none => (st, [])
  | some id =>
    let src := normalizePathV2 fromPath
    let dst := normalizePathV2 toPath
    if src = dst then (st, [])
    else
      let files := (jsGet st.v2Files id).getD []
      let branch :
          List (String × V2FileRecord) × List (String × String) ×
            List (String × ProjectDoc) :=
        if jsHas files src then
          match jsGet files src with
          | some r =>
            let newRec := { r with path := dst, updatedAt := t }
            (jsSet (jsDelete files src) dst newRec, [(src, dst)], st.v2Docs)
          | none => (files, [], st.v2Docs)
        else
          let affected := sortByLenDesc ((files.map (·.1)).filter
            (fun q => q = src || jsStartsWith q (src ++ "/")))
          let folded := affected.foldl
            (fun (acc : List (String × V2FileRecord) × List (String × String))
                 (oldPath : String) =>
              let rel := if oldPath = src then "" else oldPath.drop (src.length + 1)
              let newPath :=
                if rel = "" then dst else collapseSlashes (dst ++ "/" ++ rel)
              match jsGet acc.1 oldPath with
              | some r =>
                let newRec :=
                  { r with path := normalizePathV2 newPath, updatedAt := t }
                (jsSet (jsDelete acc.1 oldPath) newRec.path newRec,
                 acc.2 ++ [(oldPath, newRec.path)])
              | none => acc)
            (files, [])
          (folded.1, folded.2, renameDirsDocsUpdate st.v2Docs id src dst t)
      let files1 := branch.1
      let moves := branch.2.1
      let docsA := branch.2.2
      let docs1 := touchDocs docsA id t
      ({ st with v2Files := jsSet st.v2Files id files1, v2Docs := docs1 },
       moves.map (fun m => FsEvent.fileMoved id m.1 m.2))

/-- `FileSystemService.clear`, v2 path (lines 1242-1263): it empties the
file map of the active project and zeroes the doc stats, and emits no
Event Bus event at all (only the internal listener `notify`). -/
def clearV2 (st : FacadeState) (t : Nat) : FacadeState × List FsEvent :=
  match st.v2ActiveProjectId with
  | none => (st, [])
  | some id =>
    let files1 := match jsGet st.v2Files id with
      | some _ => jsSet st.v2Files id []
      | none => st.v2Files
    let docs1 := match jsGet st.v2Docs id with
      | some doc => jsSet st.v2Docs id { doc with
          stats := { doc.stats with fileCount := 0, totalBytes := 0 },
          updatedAt := t }
      | none => st.v2Docs
    ({ st with v2Files := files1, v2Docs := docs1 }, [])

/-- Total byte size of the cached file records (sum of the `size`
fields). -/
def sumSizes (files : List (String × V2FileRecord)) : Nat :=
  (files.map (fun kv => kv.2.size)).sum

/-- The stats invariant of a cached `ProjectDoc`: `stats.fileCount` is the
number of entries in the cached file map and `stats.totalBytes` is the
sum of their sizes; vacuous when the doc is not cached. -/
def statsOk (st : FacadeState) (id : String) : Bool :=
  match jsGet st.v2Docs id with
  | none => true
  | some doc =>
    let files := (jsGet st.v2Files id).getD []
    decide (doc.stats.fileCount = files.length) &&
      decide (doc.stats.totalBytes = sumSizes files)

/-! ## Chat segment log (`useAIChat` hook, v2 path)

`appendMessage` (the chat hook, v2 branch) over the storageV2 chat
stores: `chatMeta` keyed by project id, `chatSegments` keyed by
`(projectId, index)`. Chat messages are opaque values of a type `μ`. -/

structure V2ChatMeta where
  projectId : String
  totalMessages : Nat
  segments : Nat
  segmentSize : Nat
  lastUpdated : Nat
deriving DecidableEq

structure ChatStore (μ : Type) where
  chatMeta : List (String × V2ChatMeta)
  chatSegs : List ((String × Nat) × List μ)
deriving DecidableEq

def emptyChatStore (μ : Type) : ChatStore μ := { chatMeta := [], chatSegs := [] }

/-- `idbGetChatSegment` returns `[]` when no record exists. -/
def getChatSegment {μ : Type} (s : ChatStore μ) (pid : String) (i : Nat) :
    List μ :=
  (jsGet s.chatSegs (pid, i)).getD []

def putChatSegment {μ : Type} (s : ChatStore μ) (pid : String) (i : Nat)
    (msgs : List μ) : ChatStore μ :=
  { s with chatSegs := jsSet s.chatSegs (pid, i) msgs }

/-- `idbPutChatMeta`; `appendMessage` always passes a meta whose
`projectId` is already the store key (`{ ...meta, projectId }`). -/
def putChatMeta {μ : Type} (s : ChatStore μ) (pid : String) (meta : V2ChatMeta) :
    ChatStore μ :=
  { s with chatMeta := jsSet s.chatMeta pid meta }

def SEGMENT_SIZE_DEFAULT : Nat := 100

/-- `appendMessage`, v2 path (chat hook lines 131-172): load or default
the meta, target the last segment, roll over to a fresh segment when the
target is full, append, then update the meta (segment count bumped only
when a segment was created this call). -/
def appendMessageV2 {μ : Type} (s : ChatStore μ) (pid : String) (msg : μ)
    (tnow : Nat) : ChatStore μ :=
  let meta := (jsGet s.chatMeta pid).getD
    { projectId := pid, totalMessages := 0, segments := 0,
      segmentSize := SEGMENT_SIZE_DEFAULT, lastUpdated := tnow }
  let segSize := if meta.segmentSize = 0 then SEGMENT_SIZE_DEFAULT
                 else meta.segmentSize
  let segIdx0 := if meta.segments > 0 then meta.segments - 1 else 0
  let createdNew0 := meta.segments = 0
  let seg0 := getChatSegment s pid segIdx0
  let s1 := if createdNew0 then putChatSegment s pid segIdx0 [] else s
  let seg1 := if createdNew0 then ([] : List μ) else seg0
  let roll := segSize ≤ seg1.length
  let segIdx := if roll then segIdx0 + 1 else segIdx0
  let s2 := if roll then putChatSegment s1 pid segIdx [] else s1
  let seg2 := if roll then ([] : List μ) else seg1
  let createdNew := createdNew0 ∨ roll
  let s3 := putChatSegment s2 pid segIdx (seg2 ++ [msg])
  let meta1 : V2ChatMeta := { meta with
    projectId := pid,
    totalMessages := meta.totalMessages + 1,
    lastUpdated := tnow,
    segments := if createdNew then meta.segments + 1 else meta.segments }
  putChatMeta s3 pid meta1

/-- Appending a list of messages one at a time, in order. -/
def appendAllV2 {μ : Type} (s : ChatStore μ) (pid : String) (msgs : List μ)
    (tnow : Nat) : ChatStore μ :=
  msgs.foldl (fun st m => appendMessageV2 st pid m tnow) s

/-! ## v1 to v2 migration (`migrateToV2IfNeeded`, `migrateProject`)

The v1 side (synchronous localStorage reads through `safeParse`, which
never throws) is modelled as a pure environment `MigEnv`. The v2 side
(chrome storage area and IndexedDB) is a state monad with exceptions
(`MigM`); a failure oracle (`FailSpec`) decides which primitive storage
operations throw. A throwing operation leaves the store unchanged, and
mutations made before a throw persist, as in the source. Chat messages
are copied verbatim and modelled as opaque `Nat` tokens. -/

structure V1FileRecord where
  path : String
  content : String
  hint : Option String
  updatedAt : Nat
  size : Option Nat
deriving DecidableEq

/-- v1 tree node; a node with no `children` array is modelled with `[]`
(`Array.isArray(undefined)` is false, so no recursion happens either
way). -/
inductive V1TreeNode where
  | mk (isDir : Bool) (name path : String) (children : List V1TreeNode)

structure V1ChatMeta where
  totalMessages : Nat
  segments : Nat
  segmentSize : Nat
  lastUpdated : Nat

/-- Everything the migration reads about one v1 project: the tree
snapshot, `listAllFilePaths` (raw stored paths, enumeration order), the
file records keyed by path, and the chat meta and numbered segments. -/
structure V1ProjectData where
  tree : Option V1TreeNode
  filePaths : List String
  fileRecs : List (String × V1FileRecord)
  chatMeta : Option V1ChatMeta
  chatSegs : List (Nat × List Nat)

/-- v1 `ProjectIndexEntry` (storage.ts lines 250-257). -/
structure ProjectIndexEntry where
  id : String
  name : String
  createdAt : Nat
  lastOpenedAt : Nat
  activeFilePath : Option String
  version : Nat
deriving DecidableEq

structure MigEnv where
  v1Index : List ProjectIndexEntry
  v1ActiveId : Option String
  v1Projects : List (String × V1ProjectData)

def v1ReadProjectTree (env : MigEnv) (id : String) : Option V1TreeNode :=
  (jsGet env.v1Projects id).bind (·.tree)

def v1ListAllFilePaths (env : MigEnv) (id : String) : List String :=
  ((jsGet env.v1Projects id).map (·.filePaths)).getD []

def v1ReadFileRecord (env : MigEnv) (id path : String) : Option V1FileRecord :=
  (jsGet env.v1Projects id).bind (fun p => jsGet p.fileRecs path)

def v1ReadChatMeta (env : MigEnv) (id : String) : Option V1ChatMeta :=
  (jsGet env.v1Projects id).bind (·.chatMeta)

def v1ReadChatSegment (env : MigEnv) (id : String) (i : Nat) : List Nat :=
  ((jsGet env.v1Projects id).bind (fun p => jsGet p.chatSegs i)).getD []

/-- Values living in the v2 KV scratch store: id-mapping strings and
done flags. -/
inductive KVal where
  | s (v : String)
  | b (v : Bool)
deriving DecidableEq

/-- JS truthiness of a KV lookup result (`undefined` and the empty
string are falsy). -/
def kvTruthy : Option KVal → Bool
  | none => false
  | some (KVal.s v) => decide (¬ v = "")
  | some (KVal.b v) => v

/-- The v2 backing stores touched by migration: the fast chrome-storage
area (schema version, active project id, project index) and the
IndexedDB object stores (projects, files, chatMeta, chatSegments, kv). -/
structure V2Store where
  schemaVersion : Option Int
  activeProjectId : Option String
  projectsIndex : List ProjectMetaIndexItem
  projects : List (String × ProjectDoc)
  files : List ((String × String) × V2FileRecord)
  chatMeta : List (String × V2ChatMeta)
  chatSegs : List ((String × Nat) × List Nat)
  kv : List (String × KVal)
deriving DecidableEq

def emptyV2Store : V2Store :=
  { schemaVersion := none, activeProjectId := none, projectsIndex := [],
    projects := [], files := [], chatMeta := [], chatSegs := [], kv := [] }

/-- Identities of the fallible primitive storage operations, used by the
failure oracle. -/
inductive StoreOp where
  | getSchemaVersionOp
  | setSchemaVersionOp
  | openDbOp
  | setActiveProjectIdOp
  | setProjectsIndexOp
  | kvGetOp (key : String)
  | kvSetOp (key : String)
  | putProjectOp (id : String)
  | putFileOp (projectId path : String)
  | putChatMetaOp (id : String)
  | putChatSegOp (id : String) (idx : Nat)
deriving DecidableEq

def FailSpec : Type := StoreOp → Bool

/-- The migration monad: state (the v2 store) plus exceptions carrying a
message string. -/
def MigM (α : Type) : Type := V2Store → Except String α × V2Store

def migPure {α : Type} (a : α) : MigM α := fun s => (Except.ok a, s)

def migBind {α β : Type} (m : MigM α) (f : α → MigM β) : MigM β := fun s =>
  match m s with
  | (Except.ok a, s1) => f a s1
  | (Except.error e, s1) => (Except.error e, s1)

instance : Monad MigM where
  pure := migPure
  bind := migBind

def migThrow {α : Type} (e : String) : MigM α := fun s => (Except.error e, s)

/-- `try / catch`. -/
def migCatch {α : Type} (m : MigM α) (h : String → MigM α) : MigM α := fun s =>
  match m s with
  | (Except.ok a, s1) => (Except.ok a, s1)
  | (Except.error e, s1) => h e s1

/-- A primitive storage operation: throws (leaving the store unchanged)
when the failure oracle says so, otherwise acts on the store. -/
def prim {α : Type} (fs : FailSpec) (op : StoreOp) (act : V2Store → α × V2Store) :
    MigM α :=
  fun s => if fs op then (Except.error "storage failure", s)
           else (Except.ok (act s).1, (act s).2)

def getSchemaVersionM (fs : FailSpec) : MigM (Option Int) :=
  prim fs StoreOp.getSchemaVersionOp (fun s => (s.schemaVersion, s))

def setSchemaVersionM (fs : FailSpec) (v : Int) : MigM Unit :=
  prim fs StoreOp.setSchemaVersionOp
    (fun s => ((), { s with schemaVersion := some v }))

def openDbM (fs : FailSpec) : MigM Unit :=
  prim fs StoreOp.openDbOp (fun s => ((), s))

def setActiveProjectIdM (fs : FailSpec) (id : Option String) : MigM Unit :=
  prim fs StoreOp.setActiveProjectIdOp
    (fun s => ((), { s with activeProjectId := id }))

def setProjectsIndexM (fs : FailSpec) (l : List ProjectMetaIndexItem) : MigM Unit :=
  prim fs StoreOp.setProjectsIndexOp
    (fun s => ((), { s with projectsIndex := l }))

def kvGetM (fs : FailSpec) (k : String) : MigM (Option KVal) :=
  prim fs (StoreOp.kvGetOp k) (fun s => (jsGet s.kv k, s))

def kvSetM (fs : FailSpec) (k : String) (v : KVal) : MigM Unit :=
  prim fs (StoreOp.kvSetOp k) (fun s => ((), { s with kv := jsSet s.kv k v }))

def idbPutProjectM (fs : FailSpec) (doc : ProjectDoc) : MigM Unit :=
  prim fs (StoreOp.putProjectOp doc.id)
    (fun s => ((), { s with projects := jsSet s.projects doc.id doc }))

/-- `idbPutFile` (storageV2.ts lines 397-410), with the projectId
mismatch override. -/
def idbPutFileM (fs : FailSpec) (pid : String) (r : V2FileRecord) : MigM Unit :=
  let r2 := if r.projectId = pid then r else { r with projectId := pid }
  prim fs (StoreOp.putFileOp pid r2.path)
    (fun s => ((), { s with files := jsSet s.files (pid, r2.path) r2 }))

/-- `idbPutChatMeta` (storageV2.ts lines 505-518), with the projectId
mismatch override. -/
def idbPutChatMetaM (fs : FailSpec) (pid : String) (meta : V2ChatMeta) : MigM Unit :=
  let m2 := if meta.projectId = pid then meta else { meta with projectId := pid }
  prim fs (StoreOp.putChatMetaOp pid)
    (fun s => ((), { s with chatMeta := jsSet s.chatMeta pid m2 }))

def idbPutChatSegM (fs : FailSpec) (pid : String) (i : Nat) (msgs : List Nat) :
    MigM Unit :=
  prim fs (StoreOp.putChatSegOp pid i)
    (fun s => ((), { s with chatSegs := jsSet s.chatSegs (pid, i) msgs }))

def V2_KV_MAP_PREFIX : String := "migrate.map."

def V2_KV_DONE_PREFIX : String := "migrate.done."

def V2_DEFAULT_SEGMENT_SIZE : Nat := 100

/-- JS whitespace for `String.prototype.trim`, restricted to the ASCII
whitespace characters (ids never contain exotic whitespace). -/
def isJsSpace (c : Char) : Bool := c = ' ' || c = '\t' || c = '\n' || c = '\r'

/-- `coerceId` (part_015 line 490): `String(id ?? '').trim()`. -/
def coerceId (id : String) : String :=
  ⟨((id.data.dropWhile isJsSpace).reverse.dropWhile isJsSpace).reverse⟩

/-- `defaultProjectDoc` of the migration (part_015 lines 490-506). -/
def defaultProjectDoc (v2Id name : String) (tnow : Nat) : ProjectDoc :=
  { id := v2Id, name := if name = "" then "Project" else name,
    createdAt := tnow, updatedAt := tnow,
    stats := { fileCount := 0, totalBytes := 0, lastOpenedAt := tnow },
    metadata := { entryHtmlPath := "index.html", openEditors := [],
                  expandedPaths := [], explicitDirs := [],
                  activeFilePath := none } }

mutual

/-- Preorder walk of `collectExplicitDirsFromTree`: a directory node
contributes `normalize(node.path || node.name || '')` when nonempty, then
its children are walked (file nodes with a children array are walked
too). -/
def treeNodeDirs : V1TreeNode → List String
  | V1TreeNode.mk isDir name path children =>
    (if isDir then
      let raw := if path = "" then name else path
      let normalized := normalizePathV2 raw
      if normalized = "" then [] else [normalized]
    else []) ++ treeListDirs children

def treeListDirs : List V1TreeNode → List String
  | [] => []
  | tnode :: rest => treeNodeDirs tnode ++ treeListDirs rest

end

/-- `collectExplicitDirsFromTree` (part_015 lines 509-525); the `Set`
dedups in insertion order. -/
def collectExplicitDirsFromTree : Option V1TreeNode → List String
  | none => []
  | some tnode => dedupKeepFirst (treeNodeDirs tnode)

/-- The per-file copy loop of `migrateProject` (part_015 lines 556-577):
each iteration is wrapped in try/catch, so per-file failures skip only
that file; the stats increments happen after the put succeeds. The
legacy record is read back with the normalized path; a missing record
yields empty content with `new Blob([content]).size` as fallback size
(UTF-8 byte length). -/
def copyMigFiles (env : MigEnv) (fs : FailSpec) (v1Id v2Id : String) (tnow : Nat) :
    ProjectDoc → List String → MigM ProjectDoc
  | doc, [] => migPure doc
  | doc, rawPath :: rest => do
    let doc1 ← migCatch (do
      let path := normalizePathV2 rawPath
      let r := v1ReadFileRecord env v1Id path
      let content := (r.map (·.content)).getD ""
      let size := match r with
        | some rr => match rr.size with
          | some n => n
          | none => content.utf8ByteSize
        | none => content.utf8ByteSize
      let fileRec : V2FileRecord :=
        { projectId := v2Id, path := path, content := content,
          contentType := none, size := size,
          updatedAt := (r.map (·.updatedAt)).getD tnow }
      idbPutFileM fs v2Id fileRec
      migPure { doc with stats := { doc.stats with
        fileCount := doc.stats.fileCount + 1,
        totalBytes := doc.stats.totalBytes + size } })
      (fun _ => migPure doc)
    copyMigFiles env fs v1Id v2Id tnow doc1 rest

/-- The chat segment copy loop (`for i in [0, meta.segments)`), written
over the remaining count. -/
def copyChatSegs (env : MigEnv) (fs : FailSpec) (v1Id v2Id : String) :
    Nat → Nat → MigM Unit
  | _, 0 => migPure ()
  | i, n + 1 => do
    let msgs := v1ReadChatSegment env v1Id i
    idbPutChatSegM fs v2Id i msgs
    copyChatSegs env fs v1Id v2Id (i + 1) n

/-- The chat copy of `migrateProject` (part_015 lines 580-599), wrapped
in try/catch: a chat failure skips the rest of the chat copy and is
otherwise non-fatal. -/
def copyMigChat (env : MigEnv) (fs : FailSpec) (v1Id v2Id : String) (tnow : Nat) :
    MigM Unit :=
  migCatch
    (match v1ReadChatMeta env v1Id with
     | none => migPure ()
     | some cm => do
       let meta : V2ChatMeta :=
         { projectId := v2Id,
           totalMessages := cm.totalMessages,
           segments := cm.segments,
           segmentSize := if cm.segmentSize = 0 then V2_DEFAULT_SEGMENT_SIZE
                          else cm.segmentSize,
           lastUpdated := if cm.lastUpdated = 0 then tnow else cm.lastUpdated }
       idbPutChatMetaM fs v2Id meta
       copyChatSegs env fs v1Id v2Id 0 meta.segments)
    (fun _ => migPure ())

/-- The id-mapping block of `migrateProject` (part_015 lines 543-549):
reuse a non-empty stored mapping, otherwise store and use
`coerceId(v1Id)`. -/
def migEnsureV2Id (fs : FailSpec) (v1Id : String) (m : Option KVal) : MigM String :=
  match m with
  | some (KVal.s v) =>
    if ¬ v = "" then migPure v
    else do
      let vid := coerceId v1Id
      kvSetM fs (V2_KV_MAP_PREFIX ++ v1Id) (KVal.s vid)
      migPure vid
  | _ => do
    let vid := coerceId v1Id
    kvSetM fs (V2_KV_MAP_PREFIX ++ v1Id) (KVal.s vid)
    migPure vid

/-- `migrateProject` (part_015 lines 531-608). Only the per-file and
chat copies are individually try/catch-protected; the kv reads/writes
and the final project-document write are not. -/
def migrateProject (env : MigEnv) (fs : FailSpec) (tnow : Nat)
    (v1Id name : String) : MigM Unit := do
  let done ← kvGetM fs (V2_KV_DONE_PREFIX ++ v1Id)
  if kvTruthy done then migPure ()
  else do
    let m ← kvGetM fs (V2_KV_MAP_PREFIX ++ v1Id)
    let v2Id ← migEnsureV2Id fs v1Id m
    let doc0 := defaultProjectDoc v2Id (if name = "" then "Project" else name) tnow
    let dirs := collectExplicitDirsFromTree (v1ReadProjectTree env v1Id)
    let doc1 := { doc0 with metadata := { doc0.metadata with explicitDirs := dirs } }
    let doc2 ← copyMigFiles env fs v1Id v2Id tnow doc1 (v1ListAllFilePaths env v1Id)
    copyMigChat env fs v1Id v2Id tnow
    let doc3 := { doc2 with
      updatedAt := tnow,
      stats := { doc2.stats with lastOpenedAt := tnow } }
    idbPutProjectM fs doc3
    kvSetM fs (V2_KV_DONE_PREFIX ++ v1Id) (KVal.b true)

/-- The project loop of `migrateToV2IfNeeded` (part_015 lines 643-656),
also building the deduplicated v2 index as a JS `Map`. Note that
`migrateProject` is called without any per-project try/catch. -/
def migLoop (env : MigEnv) (fs : FailSpec) (tnow : Nat) :
    List ProjectIndexEntry → List (String × ProjectMetaIndexItem) →
      MigM (List (String × ProjectMetaIndexItem))
  | [], dedup => migPure dedup
  | item :: rest, dedup => do
    let id := coerceId item.id
    let name := if item.name = "" then "Project" else item.name
    migrateProject env fs tnow item.id name
    let entry : ProjectMetaIndexItem :=
      { id := id, name := name, createdAt := item.createdAt,
        updatedAt := tnow, lastOpenedAt := tnow }
    migLoop env fs tnow rest (jsSet dedup id entry)

/-- The pure dedup-index computation performed by the loop (its return
value does not depend on the store). -/
def migLoopPure (tnow : Nat) : List ProjectIndexEntry →
    List (String × ProjectMetaIndexItem) → List (String × ProjectMetaIndexItem)
  | [], dedup => dedup
  | item :: rest, dedup =>
    migLoopPure tnow rest (jsSet dedup (coerceId item.id)
      { id := coerceId item.id,
        name := if item.name = "" then "Project" else item.name,
        createdAt := item.createdAt, updatedAt := tnow, lastOpenedAt := tnow })

/-- The `activeV1 ? coerceId(activeV1) : null` mapping (an empty string
is falsy). -/
def mapActiveId (a : Option String) : Option String :=
  match a with
  | some v => if v = "" then none else some (coerceId v)
  | none => none

/-- The body of `migrateToV2IfNeeded` (part_015 lines 631-667), inside
the try. -/
def migBody (env : MigEnv) (fs : FailSpec) (tnow : Nat) : MigM Unit := do
  let v ← getSchemaVersionM fs
  if v = some 2 then migPure ()
  else do
    openDbM fs
    let dedup ← migLoop env fs tnow env.v1Index []
    setProjectsIndexM fs (dedup.map (·.2))
    setActiveProjectIdM fs (mapActiveId env.v1ActiveId)
    setSchemaVersionM fs 2

/-- `migrateToV2IfNeeded` (part_015 lines 630-672): the body wrapped in
the catch that rethrows with the `[migration]` tag. -/
def migrateToV2IfNeeded (env : MigEnv) (fs : FailSpec) (tnow : Nat) : MigM Unit :=
  migCatch (migBody env fs tnow)
    (fun e => migThrow ("[migration] " ++ e))

/-- The run preserves the schema version field (used for every
operation other than `setSchemaVersionM`). -/
def PresVer {α : Type} (m : MigM α) : Prop :=
  ∀ s, ((m s).2).schemaVersion = s.schemaVersion

/-- The run leaves the schema version unchanged whenever it ends in an
error. -/
def ErrVerUnchanged {α : Type} (m : MigM α) : Prop :=
  ∀ s e, (m s).1 = Except.error e → ((m s).2).schemaVersion = s.schemaVersion

/-- The run always succeeds. -/
def MigOk {α : Type} (m : MigM α) : Prop :=
  ∀ s, ∃ a s1, m s = (Except.ok a, s1)

/-- Failure oracle of the C6 counterexample: exactly the
project-document write of project `p1` fails. -/
def c6FailSpec : FailSpec := fun op =>
  match op with
  | StoreOp.putProjectOp id => decide (id = "p1")
  | _ => false

/-- Environment of the C6 counterexample: two v1 projects, each holding
one file. -/
def c6Env : MigEnv :=
  { v1Index :=
      [{ id := "p1", name := "One", createdAt := 0, lastOpenedAt := 0,
         activeFilePath := none, version := 1 },
       { id := "p2", name := "Two", createdAt := 0, lastOpenedAt := 0,
         activeFilePath := none, version := 1 }],
    v1ActiveId := some "p1",
    v1Projects :=
      [("p1", { tree := none, filePaths := ["f.txt"],
                fileRecs := [("f.txt",
                  { path := "f.txt", content := "aaa", hint := none,
                    updatedAt := 0, size := some 3 })],
                chatMeta := none, chatSegs := [] }),
       ("p2", { tree := none, filePaths := ["g.txt"],
                fileRecs := [("g.txt",
                  { path := "g.txt", content := "bb", hint := none,
                    updatedAt := 0, size := some 2 })],
                chatMeta := none, chatSegs := [] })] }

/-- Failure oracle of the C6 amended theorem witness: every file put
fails, everything else succeeds. -/
def c6WitnessFailSpec : FailSpec := fun op =>
  match op with
  | StoreOp.putFileOp _ _ => true
  | _ => false

/-- An all-succeeding failure oracle. -/
def noFail : FailSpec := fun _ => false

/-! ### Lemmas about splitting, joining and the segment folds -/

theorem splitOnPred_ne_nil (sep : Char → Bool) (l : List Char) :
    splitOnPred sep l ≠ [] := by
  cases l with
  | nil => simp [splitOnPred]
  | cons c cs => by_cases h : sep c <;> simp [splitOnPred, h]

theorem splitOnPred_eq_cons (sep : Char → Bool) (l : List Char) :
    ∃ s rest, splitOnPred sep l = s :: rest := by
  rcases hr : splitOnPred sep l with _ | ⟨s, rest⟩
  · exact absurd hr (splitOnPred_ne_nil sep l)
  · exact ⟨s, rest, rfl⟩

theorem mem_splitOnPred_not_sep {sep : Char → Bool} {l : List Char}
    {seg : List Char} {c : Char} (hseg : seg ∈ splitOnPred sep l) (hc : c ∈ seg) :
    sep c = false := by
  induction l generalizing seg with
  | nil =>
    simp [splitOnPred] at hseg
    subst hseg; cases hc
  | cons x xs ih =>
    obtain ⟨s, rest, hr⟩ := splitOnPred_eq_cons sep xs
    by_cases hx : sep x
    · simp [splitOnPred, hx] at hseg
      rcases hseg with h | h
      · subst h; cases hc
      · exact ih h hc
    · rw [show splitOnPred sep (x :: xs) =
          (x :: (splitOnPred sep xs).headD []) :: (splitOnPred sep xs).tail from
          by simp [splitOnPred, hx], hr] at hseg
      simp only [List.headD_cons, List.tail_cons] at hseg
      rcases List.mem_cons.mp hseg with h | h
      · subst h
        rcases List.mem_cons.mp hc with h | h
        · subst h; simpa using hx
        · exact ih (hr ▸ List.mem_cons_self s rest) h
      · exact ih (hr ▸ List.mem_cons_of_mem s h) hc

theorem mem_splitOnPred_mem {sep : Char → Bool} {l : List Char}
    {seg : List Char} {c : Char} (hseg : seg ∈ splitOnPred sep l) (hc : c ∈ seg) :
    c ∈ l := by
  induction l generalizing seg with
  | nil =>
    simp [splitOnPred] at hseg
    subst hseg; cases hc
  | cons x xs ih =>
    obtain ⟨s, rest, hr⟩ := splitOnPred_eq_cons sep xs
    by_cases hx : sep x
    · simp [splitOnPred, hx] at hseg
      rcases hseg with h | h
      · subst h; cases hc
      · exact List.mem_cons_of_mem x (ih h hc)
    · rw [show splitOnPred sep (x :: xs) =
          (x :: (splitOnPred sep xs).headD []) :: (splitOnPred sep xs).tail from
          by simp [splitOnPred, hx], hr] at hseg
      simp only [List.headD_cons, List.tail_cons] at hseg
      rcases List.mem_cons.mp hseg with h | h
      · subst h
        rcases List.mem_cons.mp hc with h | h
        · subst h; exact List.mem_cons_self _ _
        · exact List.mem_cons_of_mem x (ih (hr ▸ List.mem_cons_self s rest) h)
      · exact List.mem_cons_of_mem x (ih (hr ▸ List.mem_cons_of_mem s h) hc)

theorem splitOnPred_map_bslash (l : List Char) :
    splitOnPred isSlash (l.map bslashToSlash) = splitOnPred isSep l := by
  induction l with
  | nil => rfl
  | cons c cs ih =>
    by_cases h : isSep c
    · have h2 : isSlash (bslashToSlash c) = true := by
        rcases (by simpa [isSep] using h : c = '/' ∨ c = '\\') with h | h <;>
          subst h <;> rfl
      simp [splitOnPred, h, h2, ih]
    · have hc1 : ¬ c = '/' := fun hh => h (by simp [isSep, hh])
      have hc2 : ¬ c = '\\' := fun hh => h (by simp [isSep, hh])
      have h2 : isSlash (bslashToSlash c) = false := by
        simp [bslashToSlash, if_neg hc2, isSlash, hc1]
      have h3 : bslashToSlash c = c := by simp [bslashToSlash, if_neg hc2]
      have h4 : isSlash c = false := by simp [isSlash, hc1]
      simp [splitOnPred, h, h2, h3, h4, ih]

theorem foldl_skipEmpty_dropWhile (f : List (List Char) → List Char → List (List Char))
    (hf : ∀ a, f a [] = a) (sep : Char → Bool) (l : List Char)
    (acc : List (List Char)) :
    (splitOnPred sep l).foldl f acc = (splitOnPred sep (l.dropWhile sep)).foldl f acc := by
  induction l generalizing acc with
  | nil => rfl
  | cons c cs ih =>
    by_cases h : sep c
    · simp only [splitOnPred, if_pos h, List.dropWhile_cons, h, if_true,
        List.foldl_cons, hf]
      exact ih acc
    · simp [List.dropWhile_cons, h]

theorem splitOnPred_sepFree {sep : Char → Bool} {l : List Char}
    (h : ∀ c ∈ l, sep c = false) : splitOnPred sep l = [l] := by
  induction l with
  | nil => rfl
  | cons c cs ih =>
    have hc : sep c = false := h c (List.mem_cons_self _ _)
    have ihr := ih (fun d hd => h d (List.mem_cons_of_mem c hd))
    simp [splitOnPred, hc, ihr]

theorem splitOnPred_append_sepFree {sep : Char → Bool} {l : List Char}
    (h : ∀ c ∈ l, sep c = false) (t : List Char) :
    splitOnPred sep (l ++ t) =
      (l ++ (splitOnPred sep t).headD []) :: (splitOnPred sep t).tail := by
  induction l with
  | nil =>
    rcases hr : splitOnPred sep t with _ | ⟨s, rest⟩
    · exact absurd hr (splitOnPred_ne_nil sep t)
    · simp [hr]
  | cons c cs ih =>
    have hc : sep c = false := h c (List.mem_cons_self _ _)
    have ihr := ih (fun d hd => h d (List.mem_cons_of_mem c hd))
    simp [splitOnPred, hc, ihr]

theorem splitOnPred_joinSlash {sep : Char → Bool} (hsl : sep '/' = true) :
    ∀ parts : List (List Char), parts ≠ [] →
      (∀ seg ∈ parts, ∀ c ∈ seg, sep c = false) →
      splitOnPred sep (joinSlash parts) = parts := by
  intro parts
  induction parts with
  | nil => intro h; exact absurd rfl h
  | cons p ps ih =>
    intro _ hfree
    cases ps with
    | nil =>
      simpa [joinSlash] using
        splitOnPred_sepFree (fun c hc => hfree p (List.mem_cons_self _ _) c hc)
    | cons q rest =>
      have hp : ∀ c ∈ p, sep c = false :=
        fun c hc => hfree p (List.mem_cons_self _ _) c hc
      have htail : splitOnPred sep (joinSlash (q :: rest)) = q :: rest :=
        ih (by simp) (fun seg hseg c hc =>
          hfree seg (List.mem_cons_of_mem p hseg) c hc)
      have : joinSlash (p :: q :: rest) = p ++ '/' :: joinSlash (q :: rest) := rfl
      rw [this, splitOnPred_append_sepFree hp]
      simp [splitOnPred, hsl, htail]

theorem mem_foldl_fsStep {acc segs : List (List Char)} {x : List Char}
    (hx : x ∈ segs.foldl fsStep acc) : x ∈ acc ∨ x ∈ segs := by
  induction segs generalizing acc with
  | nil => exact Or.inl hx
  | cons s ss ih =>
    rcases ih (by simpa using hx) with h | h
    · unfold fsStep at h
      split at h
      · exact Or.inl h
      · split at h
        · exact Or.inl (List.mem_of_mem_dropLast h)
        · rcases List.mem_append.mp h with h | h
          · exact Or.inl h
          · simp at h; subst h; exact Or.inr (List.mem_cons_self _ _)
    · exact Or.inr (List.mem_cons_of_mem s h)

theorem mem_foldl_keepStep {acc segs : List (List Char)} {x : List Char}
    (hx : x ∈ segs.foldl keepStep acc) : x ∈ acc ∨ x ∈ segs := by
  induction segs generalizing acc with
  | nil => exact Or.inl hx
  | cons s ss ih =>
    rcases ih (by simpa using hx) with h | h
    · unfold keepStep at h
      split at h
      · exact Or.inl h
      · rcases List.mem_append.mp h with h | h
        · exact Or.inl h
        · simp at h; subst h; exact Or.inr (List.mem_cons_self _ _)
    · exact Or.inr (List.mem_cons_of_mem s h)

theorem foldl_fsStep_good {acc segs : List (List Char)}
    (hacc : ∀ x ∈ acc, x ≠ [] ∧ x ≠ ['.'] ∧ x ≠ ['.', '.']) :
    ∀ x ∈ segs.foldl fsStep acc, x ≠ [] ∧ x ≠ ['.'] ∧ x ≠ ['.', '.'] := by
  induction segs generalizing acc with
  | nil => exact hacc
  | cons s ss ih =>
    intro x hx
    refine ih (fun y hy => ?_) x (by simpa using hx)
    unfold fsStep at hy
    split at hy
    · exact hacc y hy
    · split at hy
      · exact hacc y (List.mem_of_mem_dropLast hy)
      · rcases List.mem_append.mp hy with h | h
        · exact hacc y h
        · simp at h; subst h
          rename_i h1 h2
          push_neg at h1
          exact ⟨h1.1, h1.2, h2⟩

theorem foldl_keepStep_good {acc segs : List (List Char)}
    (hacc : ∀ x ∈ acc, x ≠ [] ∧ x ≠ ['.']) :
    ∀ x ∈ segs.foldl keepStep acc, x ≠ [] ∧ x ≠ ['.'] := by
  induction segs generalizing acc with
  | nil => exact hacc
  | cons s ss ih =>
    intro x hx
    refine ih (fun y hy => ?_) x (by simpa using hx)
    unfold keepStep at hy
    split at hy
    · exact hacc y hy
    · rcases List.mem_append.mp hy with h | h
      · exact hacc y h
      · simp at h; subst h
        rename_i h1
        push_neg at h1
        exact h1

theorem foldl_fsStep_pushAll {segs : List (List Char)}
    (h : ∀ seg ∈ segs, seg ≠ [] ∧ seg ≠ ['.'] ∧ seg ≠ ['.', '.']) :
    ∀ acc, segs.foldl fsStep acc = acc ++ segs := by
  induction segs with
  | nil => simp
  | cons s ss ih =>
    intro acc
    have hs := h s (List.mem_cons_self _ _)
    have step : fsStep acc s = acc ++ [s] := by
      unfold fsStep
      rw [if_neg (by push_neg; exact ⟨hs.1, hs.2.1⟩), if_neg hs.2.2]
    rw [List.foldl_cons, step,
      ih (fun seg hseg => h seg (List.mem_cons_of_mem s hseg))]
    simp

theorem foldl_keepStep_pushAll {segs : List (List Char)}
    (h : ∀ seg ∈ segs, seg ≠ [] ∧ seg ≠ ['.']) :
    ∀ acc, segs.foldl keepStep acc = acc ++ segs := by
  induction segs with
  | nil => simp
  | cons s ss ih =>
    intro acc
    have hs := h s (List.mem_cons_self _ _)
    have step : keepStep acc s = acc ++ [s] := by
      unfold keepStep
      rw [if_neg (by push_neg; exact hs)]
    rw [List.foldl_cons, step,
      ih (fun seg hseg => h seg (List.mem_cons_of_mem s hseg))]
    simp

theorem mem_joinSlash {parts : List (List Char)} {c : Char}
    (hc : c ∈ joinSlash parts) : (∃ seg ∈ parts, c ∈ seg) ∨ c = '/' := by
  induction parts with
  | nil => cases hc
  | cons p ps ih =>
    cases ps with
    | nil =>
      exact Or.inl ⟨p, List.mem_cons_self _ _, hc⟩
    | cons q rest =>
      have hc2 : c ∈ p ++ '/' :: joinSlash (q :: rest) := hc
      rcases List.mem_append.mp hc2 with h | h
      · exact Or.inl ⟨p, List.mem_cons_self _ _, h⟩
      · rcases List.mem_cons.mp h with h | h
        · exact Or.inr h
        · rcases ih h with ⟨seg, hseg, hcseg⟩ | h
          · exact Or.inl ⟨seg, List.mem_cons_of_mem p hseg, hcseg⟩
          · exact Or.inr h

theorem map_bslash_id {l : List Char} (h : ∀ c ∈ l, c ≠ '\\') :
    l.map bslashToSlash = l := by
  induction l with
  | nil => rfl
  | cons c cs ih =>
    have hc := h c (List.mem_cons_self _ _)
    simp [bslashToSlash, hc, ih (fun d hd => h d (List.mem_cons_of_mem c hd))]

theorem dropWhile_joinSlash_cons {q : Char → Bool} {c : Char} {p : List Char}
    {ps : List (List Char)} (hc : q c = false) :
    ((joinSlash ((c :: p) :: ps)).dropWhile q) = joinSlash ((c :: p) :: ps) := by
  cases ps with
  | nil => simp [joinSlash, List.dropWhile_cons, hc]
  | cons s rest => simp [joinSlash, List.dropWhile_cons, hc]

theorem joinSlash_cons_head (c : Char) (p : List Char) (ps : List (List Char)) :
    ∃ t, joinSlash ((c :: p) :: ps) = c :: t := by
  cases ps with
  | nil => exact ⟨p, rfl⟩
  | cons s rest => exact ⟨p ++ '/' :: joinSlash (s :: rest), rfl⟩

theorem mem_of_mem_dropWhile {q : Char → Bool} {l : List Char} {c : Char}
    (h : c ∈ l.dropWhile q) : c ∈ l := by
  induction l with
  | nil => simp at h
  | cons x xs ih =>
    rw [List.dropWhile_cons] at h
    by_cases hx : q x
    · simp only [hx, if_true] at h
      exact List.mem_cons_of_mem x (ih h)
    · simpa [hx] using h

theorem bslash_not_mem_map {l : List Char} {c : Char}
    (h : c ∈ l.map bslashToSlash) : c ≠ '\\' := by
  rcases List.mem_map.mp h with ⟨d, _, hd⟩
  subst hd
  unfold bslashToSlash
  split
  · decide
  · assumption

/-! ### Claim theorems about the path normalizers -/

theorem normalizePathFS_idem (p : String) :
    normalizePathFS (normalizePathFS p) = normalizePathFS p := by
  have good : ∀ x ∈ (splitOnPred isSep (p.data.dropWhile isSep)).foldl fsStep [],
      x ≠ [] ∧ x ≠ ['.'] ∧ x ≠ ['.', '.'] :=
    foldl_fsStep_good (fun x hx => absurd hx (List.not_mem_nil x))
  have sepfree : ∀ x ∈ (splitOnPred isSep (p.data.dropWhile isSep)).foldl fsStep [],
      ∀ c ∈ x, isSep c = false := by
    intro x hx c hc
    rcases mem_foldl_fsStep hx with h | h
    · exact absurd h (List.not_mem_nil x)
    · exact mem_splitOnPred_not_sep h hc
  rcases hparts : (splitOnPred isSep (p.data.dropWhile isSep)).foldl fsStep [] with
    _ | ⟨pt, pts⟩
  · show normalizePathFS ⟨joinSlash _⟩ = ⟨joinSlash _⟩
    rw [hparts]
    rfl
  · rw [hparts] at good sepfree
    obtain ⟨c, pchars, hpt⟩ : ∃ c pchars, pt = c :: pchars := by
      cases pt with
      | nil => exact absurd rfl (good [] (List.mem_cons_self _ _)).1
      | cons c pchars => exact ⟨c, pchars, rfl⟩
    subst hpt
    have hcsep : isSep c = false :=
      sepfree _ (List.mem_cons_self _ _) c (List.mem_cons_self _ _)
    show normalizePathFS ⟨joinSlash _⟩ = ⟨joinSlash _⟩
    rw [hparts]
    unfold normalizePathFS
    have hdata : (String.mk (joinSlash ((c :: pchars) :: pts))).data =
        joinSlash ((c :: pchars) :: pts) := rfl
    rw [hdata, dropWhile_joinSlash_cons hcsep]
    show (⟨joinSlash ((splitOnPred isSep
        (joinSlash ((c :: pchars) :: pts))).foldl fsStep [])⟩ : String) =
      ⟨joinSlash ((c :: pchars) :: pts)⟩
    rw [splitOnPred_joinSlash rfl _ (by simp) sepfree,
      foldl_fsStep_pushAll good []]
    rfl

theorem normalizePathV2_idem (p : String) :
    normalizePathV2 (normalizePathV2 p) = normalizePathV2 p := by
  by_cases hp : p = ""
  · subst hp; rfl
  · rw [show normalizePathV2 p =
        ⟨joinSlash ((splitOnPred isSlash
          ((p.data.map bslashToSlash).dropWhile isSlash)).foldl keepStep [])⟩ from by
        unfold normalizePathV2; rw [if_neg hp]]
    have good : ∀ x ∈ (splitOnPred isSlash
        ((p.data.map bslashToSlash).dropWhile isSlash)).foldl keepStep [],
        x ≠ [] ∧ x ≠ ['.'] :=
      foldl_keepStep_good (fun x hx => absurd hx (List.not_mem_nil x))
    have infree : ∀ x ∈ (splitOnPred isSlash
        ((p.data.map bslashToSlash).dropWhile isSlash)).foldl keepStep [],
        x ∈ splitOnPred isSlash ((p.data.map bslashToSlash).dropWhile isSlash) := by
      intro x hx
      rcases mem_foldl_keepStep hx with h | h
      · exact absurd h (List.not_mem_nil x)
      · exact h
    have slashfree : ∀ x ∈ (splitOnPred isSlash
        ((p.data.map bslashToSlash).dropWhile isSlash)).foldl keepStep [],
        ∀ c ∈ x, isSlash c = false :=
      fun x hx c hc => mem_splitOnPred_not_sep (infree x hx) hc
    have nobs : ∀ x ∈ (splitOnPred isSlash
        ((p.data.map bslashToSlash).dropWhile isSlash)).foldl keepStep [],
        ∀ c ∈ x, c ≠ '\\' :=
      fun x hx c hc =>
        bslash_not_mem_map (mem_of_mem_dropWhile (mem_splitOnPred_mem (infree x hx) hc))
    rcases hparts : (splitOnPred isSlash
        ((p.data.map bslashToSlash).dropWhile isSlash)).foldl keepStep [] with
      _ | ⟨pt, pts⟩
    · rfl
    · rw [hparts] at good slashfree nobs
      obtain ⟨c, pchars, hpt⟩ : ∃ c pchars, pt = c :: pchars := by
        cases pt with
        | nil => exact absurd rfl (good [] (List.mem_cons_self _ _)).1
        | cons c pchars => exact ⟨c, pchars, rfl⟩
      subst hpt
      obtain ⟨t, ht⟩ := joinSlash_cons_head c pchars pts
      have hne : (String.mk (joinSlash ((c :: pchars) :: pts))) ≠ "" := by
        rw [ht]
        intro h
        exact absurd (congrArg String.data h) (by simp)
      have hnobsjoin : ∀ d ∈ joinSlash ((c :: pchars) :: pts), d ≠ '\\' := by
        intro d hd
        rcases mem_joinSlash hd with ⟨seg, hseg, hdseg⟩ | h
        · exact nobs seg hseg d hdseg
        · subst h; decide
      have hcslash : isSlash c = false :=
        slashfree _ (List.mem_cons_self _ _) c (List.mem_cons_self _ _)
      unfold normalizePathV2
      rw [if_neg hne]
      have hdata : (String.mk (joinSlash ((c :: pchars) :: pts))).data =
          joinSlash ((c :: pchars) :: pts) := rfl
      rw [hdata, map_bslash_id hnobsjoin, dropWhile_joinSlash_cons hcslash]
      show (⟨joinSlash ((splitOnPred isSlash
          (joinSlash ((c :: pchars) :: pts))).foldl keepStep [])⟩ : String) =
        ⟨joinSlash ((c :: pchars) :: pts)⟩
      rw [splitOnPred_joinSlash rfl _ (by simp) slashfree,
        foldl_keepStep_pushAll good []]
      rfl

/-- C1 (counterexample): the claim asserts that both normalizers resolve
`..` segments; the storageV2.ts normalizer does not — on the input
`a/../b` it returns `a/../b` unchanged, while the spec canonical form
(and the fileSystem.ts normalizer) give `b`. -/
theorem c1_counterexample :
    normalizePathV2 "a/../b" = "a/../b" ∧ normalizePathSpec "a/../b" = "b" ∧
      normalizePathFS "a/../b" = "b" := by
  refine ⟨?_, ?_, ?_⟩ <;> decide

/-- C1 (amended): the fileSystem.ts normalizer agrees on every input with
the normalizer described by the spec (backslashes to slashes, leading
slashes stripped, empty and `.` segments dropped, `..` pops clamped at
root, rejoined with single slashes); the storageV2.ts normalizer is not
covered (it leaves `..` segments in place, see the counterexample). -/
theorem c1_fs_normalizer_matches_spec (p : String) :
    normalizePathFS p = normalizePathSpec p := by
  unfold normalizePathFS normalizePathSpec
  rw [splitOnPred_map_bslash,
    foldl_skipEmpty_dropWhile fsStep (fun a => by simp [fsStep]) isSep p.data []]

/-- C9: both path normalizers are idempotent on every string input
(empty strings, mixed separators and underflowing `..` included); both
are total Lean functions, so neither can fail on any input. -/
theorem c9_normalize_idempotent (p : String) :
    normalizePathFS (normalizePathFS p) = normalizePathFS p ∧
      normalizePathV2 (normalizePathV2 p) = normalizePathV2 p :=
  ⟨normalizePathFS_idem p, normalizePathV2_idem p⟩

/-! ### Lemmas about the JS map model -/

theorem jsGet_append {κ α : Type} [DecidableEq κ] (m1 m2 : List (κ × α)) (k : κ) :
    jsGet (m1 ++ m2) k =
      match jsGet m1 k with
      | some v => some v
      | none => jsGet m2 k := by
  induction m1 with
  | nil => rfl
  | cons kv m ih =>
    by_cases h : kv.1 = k <;> simp [jsGet, h, ih]

theorem jsGet_map_replace {κ α : Type} [DecidableEq κ] (m : List (κ × α))
    (k : κ) (v : α) :
    jsGet (m.map (fun kv => if kv.1 = k then (k, v) else kv)) k =
      if (jsGet m k).isSome then some v else none := by
  induction m with
  | nil => rfl
  | cons kv m ih =>
    by_cases h : kv.1 = k
    · simp [jsGet, h]
    · simp [jsGet, h, ih]

theorem jsGet_jsSet_self {κ α : Type} [DecidableEq κ] (m : List (κ × α))
    (k : κ) (v : α) : jsGet (jsSet m k v) k = some v := by
  unfold jsSet jsHas
  by_cases h : (jsGet m k).isSome
  · simp [h, jsGet_map_replace]
  · rw [if_neg (by simpa using h), jsGet_append]
    rw [Option.not_isSome_iff_eq_none] at h
    simp [h, jsGet]

theorem jsGet_map_replace_ne {κ α : Type} [DecidableEq κ] (m : List (κ × α))
    (k k2 : κ) (v : α) (hne : ¬ k2 = k) :
    jsGet (m.map (fun kv => if kv.1 = k then (k, v) else kv)) k2 = jsGet m k2 := by
  induction m with
  | nil => rfl
  | cons kv m ih =>
    by_cases h : kv.1 = k
    · have h2 : ¬ k = k2 := fun hh => hne hh.symm
      have h3 : ¬ kv.1 = k2 := by rw [h]; exact h2
      simp [jsGet, h, h2, h3, ih]
    · simp only [List.map_cons, if_neg h]
      by_cases h2 : kv.1 = k2 <;> simp [jsGet, h2, ih]

theorem jsGet_cons {κ α : Type} [DecidableEq κ] (kv : κ × α) (m : List (κ × α))
    (k : κ) : jsGet (kv :: m) k = if kv.1 = k then some kv.2 else jsGet m k := rfl

theorem jsDelete_cons {κ α : Type} [DecidableEq κ] (kv : κ × α)
    (m : List (κ × α)) (k : κ) :
    jsDelete (kv :: m) k =
      if kv.1 = k then jsDelete m k else kv :: jsDelete m k := rfl

theorem jsGet_jsSet_ne {κ α : Type} [DecidableEq κ] (m : List (κ × α))
    (k k2 : κ) (v : α) (hne : ¬ k2 = k) :
    jsGet (jsSet m k v) k2 = jsGet m k2 := by
  unfold jsSet
  by_cases h : jsHas m k
  · simp [h, jsGet_map_replace_ne _ _ _ _ hne]
  · rw [if_neg h, jsGet_append]
    have hkk : ¬ k = k2 := fun hh => hne hh.symm
    have hnone : jsGet [(k, v)] k2 = none := by
      rw [jsGet_cons, if_neg hkk]
      rfl
    rw [hnone]
    cases jsGet m k2 <;> rfl

theorem jsGet_jsDelete_self {κ α : Type} [DecidableEq κ] (m : List (κ × α))
    (k : κ) : jsGet (jsDelete m k) k = none := by
  induction m with
  | nil => rfl
  | cons kv m ih =>
    by_cases h : kv.1 = k <;> simp [jsDelete, jsGet, h, ih]

theorem jsGet_jsDelete_ne {κ α : Type} [DecidableEq κ] (m : List (κ × α))
    (k k2 : κ) (hne : ¬ k2 = k) :
    jsGet (jsDelete m k) k2 = jsGet m k2 := by
  induction m with
  | nil => rfl
  | cons kv m ih =>
    rw [jsDelete_cons]
    by_cases h : kv.1 = k
    · have h2 : ¬ kv.1 = k2 := by rw [h]; exact fun hh => hne hh.symm
      rw [if_pos h, ih, jsGet_cons, if_neg h2]
    · rw [if_neg h, jsGet_cons, jsGet_cons]
      by_cases h2 : kv.1 = k2
      · rw [if_pos h2, if_pos h2]
      · rw [if_neg h2, if_neg h2, ih]

theorem jsGet_foldl_jsDelete {κ α : Type} [DecidableEq κ] (ks : List κ)
    (m : List (κ × α)) (k : κ) :
    jsGet (ks.foldl (fun mm kk => jsDelete mm kk) m) k =
      if k ∈ ks then none else jsGet m k := by
  induction ks generalizing m with
  | nil => simp
  | cons a ks ih =>
    rw [List.foldl_cons, ih]
    by_cases hk : k ∈ ks
    · simp [hk]
    · by_cases ha : k = a
      · subst ha; simp [hk, jsGet_jsDelete_self]
      · simp [hk, ha, jsGet_jsDelete_ne _ _ _ ha]

theorem jsGet_eq_none_of_not_mem_keys {κ α : Type} [DecidableEq κ]
    {m : List (κ × α)} {k : κ} (h : k ∉ m.map (·.1)) : jsGet m k = none := by
  induction m with
  | nil => rfl
  | cons kv m ih =>
    simp only [List.map_cons, List.mem_cons] at h
    push_neg at h
    have h1 : ¬ kv.1 = k := fun hh => h.1 hh.symm
    simp [jsGet, h1, ih h.2]

theorem resolveProjectId_congr {st st2 : FacadeState} (pid : Option String)
    (h : st2.v2ActiveProjectId = st.v2ActiveProjectId) :
    resolveProjectId st2 pid = resolveProjectId st pid := by
  unfold resolveProjectId
  cases pid with
  | none => exact h
  | some i => by_cases hi : i = "" <;> simp [hi, h]

/-! ### Claim theorems about the facade file operations -/

/-- C2: on the v2 facade, writing a file and immediately reading it back
from the in-memory cache yields the written content, for any resolvable
project; the asynchronous backing-store writes are fire-and-forget and
are not part of the synchronous cache state, so the round-trip does not
depend on their completion. -/
theorem c2_write_read_roundtrip (st : FacadeState) (path content : String)
    (pid : Option String) (t : Nat) (id : String)
    (h : resolveProjectId st pid = some id) :
    readFileV2 (writeFileV2 st path content pid t).1 path pid = some content := by
  have hact : (writeFileV2 st path content pid t).1.v2ActiveProjectId =
      st.v2ActiveProjectId := by
    unfold writeFileV2
    rw [h]
  have hfiles : (writeFileV2 st path content pid t).1.v2Files =
      jsSet st.v2Files id
        (jsSet ((jsGet st.v2Files id).getD []) (normalizePathV2 path)
          { projectId := id, path := normalizePathV2 path, content := content,
            contentType := none, size := content.length, updatedAt := t }) := by
    unfold writeFileV2
    rw [h]
  unfold readFileV2
  rw [resolveProjectId_congr pid hact, h, hfiles]
  simp [jsGet_jsSet_self]

theorem c2_write_read_roundtrip_witness :
    resolveProjectId (v2CreateProject emptyFacade "p1" "Demo" false 0).1 none =
        some "p1" ∧
      readFileV2 (writeFileV2 (v2CreateProject emptyFacade "p1" "Demo" false 0).1
          "notes.txt" "hello" none 1).1 "notes.txt" none = some "hello" :=
  ⟨by decide,
   c2_write_read_roundtrip (v2CreateProject emptyFacade "p1" "Demo" false 0).1
     "notes.txt" "hello" none 1 "p1" (by decide)⟩

/-- C3: on the v2 facade, renaming an existing file of the active project
to a path with a different normalized form moves the content: reading the
destination yields the original content and reading the source yields
not-found. -/
theorem c3_rename_moves_content (st : FacadeState) (fromPath toPath : String)
    (t : Nat) (id : String) (r : V2FileRecord)
    (hact : st.v2ActiveProjectId = some id)
    (hsrc : jsGet ((jsGet st.v2Files id).getD []) (normalizePathV2 fromPath) =
      some r)
    (hne : ¬ normalizePathV2 fromPath = normalizePathV2 toPath) :
    readFileV2 (renamePathV2 st fromPath toPath t).1 toPath none = some r.content ∧
      readFileV2 (renamePathV2 st fromPath toPath t).1 fromPath none = none := by
  have hhas : jsHas ((jsGet st.v2Files id).getD []) (normalizePathV2 fromPath) =
      true := by
    unfold jsHas
    rw [hsrc]
    rfl
  have hfiles : (renamePathV2 st fromPath toPath t).1.v2Files =
      jsSet st.v2Files id
        (jsSet (jsDelete ((jsGet st.v2Files id).getD []) (normalizePathV2 fromPath))
          (normalizePathV2 toPath)
          { r with path := normalizePathV2 toPath, updatedAt := t }) := by
    unfold renamePathV2
    rw [hact]
    simp only [if_neg hne, hhas, if_true, hsrc]
  have hact2 : (renamePathV2 st fromPath toPath t).1.v2ActiveProjectId = some id := by
    unfold renamePathV2
    rw [hact]
    simp only [if_neg hne, hhas, if_true, hsrc]
  have hres : resolveProjectId (renamePathV2 st fromPath toPath t).1 none =
      some id := hact2
  constructor
  · unfold readFileV2
    rw [hres, hfiles]
    simp [jsGet_jsSet_self]
  · unfold readFileV2
    rw [hres, hfiles]
    simp only [jsGet_jsSet_self, Option.some_bind]
    rw [jsGet_jsSet_ne _ _ _ _ hne, jsGet_jsDelete_self]
    rfl

theorem c3_rename_moves_content_witness :
    readFileV2 (renamePathV2 (writeFileV2
        (v2CreateProject emptyFacade "p1" "Demo" false 0).1
        "x.txt" "hi" none 1).1 "x.txt" "y.txt" 2).1 "y.txt" none = some "hi" ∧
      readFileV2 (renamePathV2 (writeFileV2
        (v2CreateProject emptyFacade "p1" "Demo" false 0).1
        "x.txt" "hi" none 1).1 "x.txt" "y.txt" 2).1 "x.txt" none = none :=
  c3_rename_moves_content
    (writeFileV2 (v2CreateProject emptyFacade "p1" "Demo" false 0).1
      "x.txt" "hi" none 1).1
    "x.txt" "y.txt" 2 "p1"
    { projectId := "p1", path := "x.txt", content := "hi", contentType := none,
      size := 2, updatedAt := 1 }
    (by decide) (by decide) (by decide)

/-- C4: on the v2 facade, deleting a path of the active project that is
not itself a file record (the directory case) removes every file record
whose normalized path equals the deleted path or starts with it plus a
slash. -/
theorem c4_directory_delete_cascade (st : FacadeState) (path k : String)
    (t : Nat) (id : String)
    (hact : st.v2ActiveProjectId = some id)
    (hdir : jsHas ((jsGet st.v2Files id).getD []) (normalizePathV2 path) = false)
    (hk : k = normalizePathV2 path ∨
      jsStartsWith k (normalizePathV2 path ++ "/") = true) :
    jsGet ((jsGet (deletePathV2 st path t).1.v2Files id).getD []) k = none := by
  have hfiles : (deletePathV2 st path t).1.v2Files =
      jsSet st.v2Files id
        ((((jsGet st.v2Files id).getD []).map (·.1)).filter
            (fun q => q = normalizePathV2 path ||
              jsStartsWith q (normalizePathV2 path ++ "/")) |>.foldl
          (fun m q => jsDelete m q) ((jsGet st.v2Files id).getD [])) := by
    unfold deletePathV2
    rw [hact]
    simp only [hdir, Bool.false_eq_true, if_false]
  rw [hfiles, jsGet_jsSet_self]
  simp only [Option.getD_some]
  rw [jsGet_foldl_jsDelete]
  by_cases hmem : k ∈ (((jsGet st.v2Files id).getD []).map (·.1)).filter
      (fun q => q = normalizePathV2 path ||
        jsStartsWith q (normalizePathV2 path ++ "/"))
  · simp [hmem]
  · rw [if_neg hmem]
    apply jsGet_eq_none_of_not_mem_keys
    intro hkeys
    apply hmem
    apply List.mem_filter.mpr
    refine ⟨hkeys, ?_⟩
    rcases hk with h | h
    · simp [h]
    · simp [h]

/-! ### Lemmas for the stats invariant (C10) -/

theorem v2ComputeStats_go (m : List (String × V2FileRecord)) :
    ∀ a b, m.foldl (fun acc f => (acc.1 + 1, acc.2 + f.2.size)) (a, b) =
      (a + m.length, b + sumSizes m) := by
  induction m with
  | nil => intro a b; simp [sumSizes]
  | cons kv m ih =>
    intro a b
    rw [List.foldl_cons, ih]
    unfold sumSizes
    simp
    constructor <;> omega

theorem v2ComputeStats_eq (m : List (String × V2FileRecord)) :
    v2ComputeStats m = (m.length, sumSizes m) := by
  unfold v2ComputeStats
  rw [v2ComputeStats_go]
  simp

theorem sumSizes_cons (kv : String × V2FileRecord)
    (m : List (String × V2FileRecord)) :
    sumSizes (kv :: m) = kv.2.size + sumSizes m := by
  simp [sumSizes]

theorem jsGet_some_mem_keys {κ α : Type} [DecidableEq κ]
    {m : List (κ × α)} {k : κ} {v : α} (h : jsGet m k = some v) :
    k ∈ m.map (·.1) := by
  induction m with
  | nil => simp [jsGet] at h
  | cons kv m ih =>
    rw [jsGet_cons] at h
    by_cases hk : kv.1 = k
    · simp [hk]
    · rw [if_neg hk] at h
      simp [ih h]

theorem jsDelete_eq_self_of_get_none {κ α : Type} [DecidableEq κ]
    {m : List (κ × α)} {k : κ} (h : jsGet m k = none) : jsDelete m k = m := by
  induction m with
  | nil => rfl
  | cons kv m ih =>
    rw [jsGet_cons] at h
    by_cases hk : kv.1 = k
    · rw [if_pos hk] at h; cases h
    · rw [if_neg hk] at h
      rw [jsDelete_cons, if_neg hk, ih h]

theorem jsDelete_stats {m : List (String × V2FileRecord)} {k : String}
    {v : V2FileRecord} (hnd : (m.map (·.1)).Nodup) (hget : jsGet m k = some v) :
    (jsDelete m k).length + 1 = m.length ∧
      sumSizes (jsDelete m k) + v.size = sumSizes m := by
  induction m with
  | nil => simp [jsGet] at hget
  | cons kv m ih =>
    rw [List.map_cons, List.nodup_cons] at hnd
    rw [jsGet_cons] at hget
    by_cases hk : kv.1 = k
    · rw [if_pos hk] at hget
      have hv : kv.2 = v := by injection hget
      have hnone : jsGet m k = none :=
        jsGet_eq_none_of_not_mem_keys (by rw [← hk]; exact hnd.1)
      rw [jsDelete_cons, if_pos hk, jsDelete_eq_self_of_get_none hnone,
        sumSizes_cons, hv]
      constructor
      · simp
      · omega
    · rw [if_neg hk] at hget
      obtain ⟨ih1, ih2⟩ := ih hnd.2 hget
      rw [jsDelete_cons, if_neg hk, sumSizes_cons, sumSizes_cons]
      constructor
      · simp only [List.length_cons]; omega
      · omega

theorem jsSet_of_has_false {κ α : Type} [DecidableEq κ] {m : List (κ × α)}
    {k : κ} (v : α) (h : jsHas m k = false) : jsSet m k v = m ++ [(k, v)] := by
  unfold jsSet
  rw [h]
  rfl

theorem sumSizes_append_single (m : List (String × V2FileRecord))
    (kv : String × V2FileRecord) :
    sumSizes (m ++ [kv]) = sumSizes m + kv.2.size := by
  simp [sumSizes]

theorem statsOk_true_of_none {st : FacadeState} {q : String}
    (h : jsGet st.v2Docs q = none) : statsOk st q = true := by
  unfold statsOk
  rw [h]

/-- Any state whose doc cache at `id` has just been given the recomputed
stats of the file map now stored at `id` satisfies the invariant at every
project, provided it held before for the other projects. This is the
common shape of `writeFile` and `deletePath`. -/
theorem statsOk_after_recompute (st : FacadeState) (id : String)
    (files1 : List (String × V2FileRecord))
    (docsA : List (String × ProjectDoc)) (t : Nat) (q : String)
    (hframe : ∀ q2, ¬ q2 = id → jsGet docsA q2 = jsGet st.v2Docs q2)
    (h : statsOk st q = true) :
    statsOk
      { st with
        v2Files := jsSet st.v2Files id files1,
        v2Docs := recomputeStatsDocs docsA id files1 t } q = true := by
  by_cases hq : q = id
  · subst hq
    unfold recomputeStatsDocs
    rcases hdocsA : jsGet docsA q with _ | doc
    · exact statsOk_true_of_none (by simpa using hdocsA)
    · unfold statsOk
      simp only []
      rw [jsGet_jsSet_self, jsGet_jsSet_self]
      simp [v2ComputeStats_eq]
  · unfold statsOk at h ⊢
    have hd : jsGet (recomputeStatsDocs docsA id files1 t) q = jsGet st.v2Docs q := by
      unfold recomputeStatsDocs
      rcases hdocsA : jsGet docsA id with _ | doc
      · exact hframe q hq
      · simp only []
        rw [jsGet_jsSet_ne _ _ _ _ hq]
        exact hframe q hq
    simp only [hd]
    rw [jsGet_jsSet_ne _ _ _ _ hq]
    exact h

theorem jsGet_deleteDirDocsUpdate_ne (docs : List (String × ProjectDoc))
    (id p : String) (t : Nat) (q : String) (hq : ¬ q = id) :
    jsGet (deleteDirDocsUpdate docs id p t) q = jsGet docs q := by
  unfold deleteDirDocsUpdate
  rcases hdoc : jsGet docs id with _ | doc
  · rfl
  · simp only []
    split
    · rw [jsGet_jsSet_ne _ _ _ _ hq]
    · rfl

theorem statsOk_writeFile (st : FacadeState) (path content : String)
    (pid : Option String) (t : Nat) (q : String)
    (h : statsOk st q = true) :
    statsOk (writeFileV2 st path content pid t).1 q = true := by
  cases hres : resolveProjectId st pid with
  | none =>
    have hst : (writeFileV2 st path content pid t).1 = st := by
      unfold writeFileV2; rw [hres]
    rw [hst]; exact h
  | some id =>
    have hst : (writeFileV2 st path content pid t).1 =
        { st with
          v2Files := jsSet st.v2Files id
            (jsSet ((jsGet st.v2Files id).getD []) (normalizePathV2 path)
              { projectId := id, path := normalizePathV2 path, content := content,
                contentType := none, size := content.length, updatedAt := t }),
          v2Docs := recomputeStatsDocs st.v2Docs id
            (jsSet ((jsGet st.v2Files id).getD []) (normalizePathV2 path)
              { projectId := id, path := normalizePathV2 path, content := content,
                contentType := none, size := content.length, updatedAt := t }) t } := by
      unfold writeFileV2
      rw [hres]
    rw [hst]
    exact statsOk_after_recompute st id _ st.v2Docs t q (fun _ _ => rfl) h

theorem statsOk_deletePath (st : FacadeState) (path : String) (t : Nat)
    (q : String) (h : statsOk st q = true) :
    statsOk (deletePathV2 st path t).1 q = true := by
  cases hact : st.v2ActiveProjectId with
  | none =>
    have hst : (deletePathV2 st path t).1 = st := by
      unfold deletePathV2; rw [hact]
    rw [hst]; exact h
  | some id =>
    by_cases hbr : jsHas ((jsGet st.v2Files id).getD []) (normalizePathV2 path)
    · have hst : (deletePathV2 st path t).1 =
          { st with
            v2Files := jsSet st.v2Files id
              (jsDelete ((jsGet st.v2Files id).getD []) (normalizePathV2 path)),
            v2Docs := recomputeStatsDocs st.v2Docs id
              (jsDelete ((jsGet st.v2Files id).getD []) (normalizePathV2 path)) t } := by
        unfold deletePathV2
        rw [hact]
        simp only [hbr, if_true]
      rw [hst]
      exact statsOk_after_recompute st id _ st.v2Docs t q (fun _ _ => rfl) h
    · have hst : (deletePathV2 st path t).1 =
          { st with
            v2Files := jsSet st.v2Files id
              (((((jsGet st.v2Files id).getD []).map (·.1)).filter
                  (fun k => k = normalizePathV2 path ||
                    jsStartsWith k (normalizePathV2 path ++ "/"))).foldl
                (fun m k => jsDelete m k) ((jsGet st.v2Files id).getD [])),
            v2Docs := recomputeStatsDocs
              (deleteDirDocsUpdate st.v2Docs id (normalizePathV2 path) t) id
              (((((jsGet st.v2Files id).getD []).map (·.1)).filter
                  (fun k => k = normalizePathV2 path ||
                    jsStartsWith k (normalizePathV2 path ++ "/"))).foldl
                (fun m k => jsDelete m k) ((jsGet st.v2Files id).getD [])) t } := by
        unfold deletePathV2
        rw [hact]
        simp only [hbr, Bool.false_eq_true, if_false]
      rw [hst]
      exact statsOk_after_recompute st id _ _ t q
        (fun q2 hq2 => jsGet_deleteDirDocsUpdate_ne _ _ _ _ _ hq2) h

theorem jsGet_touchDocs_ne (docs : List (String × ProjectDoc)) (id : String)
    (t : Nat) (q : String) (hq : ¬ q = id) :
    jsGet (touchDocs docs id t) q = jsGet docs q := by
  unfold touchDocs
  rcases hdoc : jsGet docs id with _ | doc
  · rfl
  · simp only []
    rw [jsGet_jsSet_ne _ _ _ _ hq]

theorem statsOk_clear (st : FacadeState) (t : Nat) (q : String)
    (h : statsOk st q = true) : statsOk (clearV2 st t).1 q = true := by
  cases hact : st.v2ActiveProjectId with
  | none =>
    have hst : (clearV2 st t).1 = st := by
      unfold clearV2; rw [hact]
    rw [hst]; exact h
  | some id =>
    have hst : (clearV2 st t).1 =
        { st with
          v2Files := match jsGet st.v2Files id with
            | some _ => jsSet st.v2Files id []
            | none => st.v2Files,
          v2Docs := match jsGet st.v2Docs id with
            | some doc => jsSet st.v2Docs id { doc with
                stats := { doc.stats with fileCount := 0, totalBytes := 0 },
                updatedAt := t }
            | none => st.v2Docs } := by
      unfold clearV2; rw [hact]
    rw [hst]
    by_cases hq : q = id
    · subst hq
      rcases hdoc : jsGet st.v2Docs q with _ | doc
      · apply statsOk_true_of_none
        show jsGet st.v2Docs q = none
        exact hdoc
      · unfold statsOk
        simp only [hdoc]
        rw [jsGet_jsSet_self]
        rcases hfl : jsGet st.v2Files q with _ | fl
        · simp [hfl, sumSizes]
        · simp only [hfl]
          rw [jsGet_jsSet_self]
          simp [sumSizes]
    · unfold statsOk at h ⊢
      have hd : jsGet (match jsGet st.v2Docs id with
          | some doc => jsSet st.v2Docs id { doc with
              stats := { doc.stats with fileCount := 0, totalBytes := 0 },
              updatedAt := t }
          | none => st.v2Docs) q = jsGet st.v2Docs q := by
        rcases hdoc : jsGet st.v2Docs id with _ | doc
        · rfl
        · rw [jsGet_jsSet_ne _ _ _ _ hq]
      have hf : jsGet (match jsGet st.v2Files id with
          | some _ => jsSet st.v2Files id []
          | none => st.v2Files) q = jsGet st.v2Files q := by
        rcases hfl : jsGet st.v2Files id with _ | fl
        · rfl
        · rw [jsGet_jsSet_ne _ _ _ _ hq]
      simp only [hd, hf]
      exact h

theorem statsOk_createProject (st : FacadeState) (newId name : String)
    (ws : Bool) (t : Nat) (q : String) (h : statsOk st q = true) :
    statsOk (v2CreateProject st newId name ws t).1 q = true := by
  cases ws with
  | false =>
    have hst : (v2CreateProject st newId name false t).1 =
        { v2Index := st.v2Index ++
            [{ id := newId, name := if name = "" then "Untitled" else name,
               createdAt := t, updatedAt := t, lastOpenedAt := t }],
          v2Docs := jsSet st.v2Docs newId
            (v2DefaultDoc newId (if name = "" then "Untitled" else name) t),
          v2Files := jsSet st.v2Files newId [],
          v2ActiveProjectId := some newId } := by
      unfold v2CreateProject
      rfl
    rw [hst]
    by_cases hq : q = newId
    · subst hq
      unfold statsOk
      rw [jsGet_jsSet_self, jsGet_jsSet_self]
      simp [v2DefaultDoc, sumSizes]
    · unfold statsOk at h ⊢
      rw [jsGet_jsSet_ne _ _ _ _ hq, jsGet_jsSet_ne _ _ _ _ hq]
      exact h
  | true =>
    have hst : (v2CreateProject st newId name true t).1 =
        { v2Index := st.v2Index ++
            [{ id := newId, name := if name = "" then "Untitled" else name,
               createdAt := t, updatedAt := t, lastOpenedAt := t }],
          v2Docs := jsSet st.v2Docs newId
            { v2DefaultDoc newId (if name = "" then "Untitled" else name) t with
              stats := { (v2DefaultDoc newId
                  (if name = "" then "Untitled" else name) t).stats with
                fileCount := (v2ComputeStats (starterFiles.foldl (fun m pc =>
                  jsSet m (normalizePathV2 pc.1)
                    { projectId := newId, path := normalizePathV2 pc.1,
                      content := pc.2, contentType := none, size := pc.2.length,
                      updatedAt := t }) [])).1,
                totalBytes := (v2ComputeStats (starterFiles.foldl (fun m pc =>
                  jsSet m (normalizePathV2 pc.1)
                    { projectId := newId, path := normalizePathV2 pc.1,
                      content := pc.2, contentType := none, size := pc.2.length,
                      updatedAt := t }) [])).2 },
              metadata := { (v2DefaultDoc newId
                  (if name = "" then "Untitled" else name) t).metadata with
                activeFilePath := some "index.html" } },
          v2Files := jsSet st.v2Files newId (starterFiles.foldl (fun m pc =>
            jsSet m (normalizePathV2 pc.1)
              { projectId := newId, path := normalizePathV2 pc.1,
                content := pc.2, contentType := none, size := pc.2.length,
                updatedAt := t }) []),
          v2ActiveProjectId := some newId } := by
      unfold v2CreateProject
      rfl
    rw [hst]
    by_cases hq : q = newId
    · subst hq
      unfold statsOk
      rw [jsGet_jsSet_self, jsGet_jsSet_self]
      simp [v2ComputeStats_eq]
    · unfold statsOk at h ⊢
      rw [jsGet_jsSet_ne _ _ _ _ hq, jsGet_jsSet_ne _ _ _ _ hq]
      exact h

theorem statsOk_renamePath_file (st : FacadeState) (fromPath toPath : String)
    (t : Nat) (id : String) (r : V2FileRecord) (q : String)
    (hact : st.v2ActiveProjectId = some id)
    (hsrc : jsGet ((jsGet st.v2Files id).getD []) (normalizePathV2 fromPath) =
      some r)
    (hdst : jsHas ((jsGet st.v2Files id).getD []) (normalizePathV2 toPath) = false)
    (hnd : (((jsGet st.v2Files id).getD []).map (·.1)).Nodup)
    (h : statsOk st q = true) :
    statsOk (renamePathV2 st fromPath toPath t).1 q = true := by
  have hne : ¬ normalizePathV2 fromPath = normalizePathV2 toPath := by
    intro he
    rw [he] at hsrc
    unfold jsHas at hdst
    rw [hsrc] at hdst
    simp at hdst
  have hhas : jsHas ((jsGet st.v2Files id).getD []) (normalizePathV2 fromPath) =
      true := by
    unfold jsHas
    rw [hsrc]
    rfl
  have hst : (renamePathV2 st fromPath toPath t).1 =
      { st with
        v2Files := jsSet st.v2Files id
          (jsSet (jsDelete ((jsGet st.v2Files id).getD [])
              (normalizePathV2 fromPath))
            (normalizePathV2 toPath)
            { r with path := normalizePathV2 toPath, updatedAt := t }),
        v2Docs := touchDocs st.v2Docs id t } := by
    unfold renamePathV2
    rw [hact]
    simp only [if_neg hne, hhas, if_true, hsrc]
  rw [hst]
  by_cases hq : q = id
  · subst hq
    rcases hdoc : jsGet st.v2Docs q with _ | doc
    · apply statsOk_true_of_none
      show jsGet (touchDocs st.v2Docs q t) q = none
      unfold touchDocs
      rw [hdoc]
      exact hdoc
    · have hinv : doc.stats.fileCount = ((jsGet st.v2Files q).getD []).length ∧
          doc.stats.totalBytes = sumSizes ((jsGet st.v2Files q).getD []) := by
        unfold statsOk at h
        rw [hdoc] at h
        simpa using h
      have hdelstats := jsDelete_stats hnd hsrc
      have hdstnone : jsGet (jsDelete ((jsGet st.v2Files q).getD [])
          (normalizePathV2 fromPath)) (normalizePathV2 toPath) = none := by
        rw [jsGet_jsDelete_ne _ _ _ (fun hh => hne hh.symm)]
        unfold jsHas at hdst
        rcases hg : jsGet ((jsGet st.v2Files q).getD []) (normalizePathV2 toPath)
          with _ | v
        · rfl
        · rw [hg] at hdst; simp at hdst
      have hdsthas : jsHas (jsDelete ((jsGet st.v2Files q).getD [])
          (normalizePathV2 fromPath)) (normalizePathV2 toPath) = false := by
        unfold jsHas
        rw [hdstnone]
        rfl
      unfold statsOk
      show (match jsGet (touchDocs st.v2Docs q t) q with
        | none => true
        | some doc => _) = true
      unfold touchDocs
      rw [hdoc, jsGet_jsSet_self]
      simp only []
      rw [jsGet_jsSet_self]
      rw [jsSet_of_has_false _ hdsthas]
      simp only [Option.getD_some]
      rw [Bool.and_eq_true, decide_eq_true_eq, decide_eq_true_eq]
      obtain ⟨hA, hB⟩ := hinv
      have h1 := hdelstats.1
      have h2 := hdelstats.2
      refine ⟨?_, ?_⟩
      · rw [List.length_append]
        simp only [List.length_cons, List.length_nil]
        omega
      · rw [sumSizes_append_single]
        have hsz : ((normalizePathV2 toPath,
            { r with path := normalizePathV2 toPath, updatedAt := t }) :
              String × V2FileRecord).2.size = r.size := rfl
        rw [hsz]
        omega
  · unfold statsOk at h ⊢
    rw [jsGet_touchDocs_ne _ _ _ _ hq, jsGet_jsSet_ne _ _ _ _ hq]
    exact h

/-- C10 (counterexample): the stats invariant holds after two writes, but
`renamePath` of directory `a` onto `b` silently overwrites `b/f` with
`a/f` without recomputing the stats, leaving `fileCount = 2` while the
cached file map holds a single record. -/
theorem c10_counterexample :
    statsOk (writeFileV2 (writeFileV2 (v2CreateProject emptyFacade "p1" "Demo"
        false 0).1 "a/f" "xy" none 1).1 "b/f" "pqr" none 1).1 "p1" = true ∧
      statsOk (renamePathV2 (writeFileV2 (writeFileV2 (v2CreateProject
        emptyFacade "p1" "Demo" false 0).1 "a/f" "xy" none 1).1
        "b/f" "pqr" none 1).1 "a" "b" 2).1 "p1" = false :=
  ⟨by decide, by decide⟩

/-- C10 (amended): on the v2 path, the invariant "the cached doc's
`stats.fileCount` equals the number of entries of the cached file map and
`stats.totalBytes` equals the sum of their sizes" is preserved (for every
project) by `writeFile`, `deletePath`, `clear` and `createProject` (with
or without starter files), and by `renamePath` of a file record whose
destination does not collide with an existing record; `renamePath` does
not recompute stats, so a colliding move can break the invariant (see the
counterexample). -/
theorem c10_stats_invariant_amended :
    (∀ st path content pid t q, statsOk st q = true →
      statsOk (writeFileV2 st path content pid t).1 q = true) ∧
    (∀ st path t q, statsOk st q = true →
      statsOk (deletePathV2 st path t).1 q = true) ∧
    (∀ st t q, statsOk st q = true → statsOk (clearV2 st t).1 q = true) ∧
    (∀ st newId name ws t q, statsOk st q = true →
      statsOk (v2CreateProject st newId name ws t).1 q = true) ∧
    (∀ st fromPath toPath t id r q, st.v2ActiveProjectId = some id →
      jsGet ((jsGet st.v2Files id).getD []) (normalizePathV2 fromPath) = some r →
      jsHas ((jsGet st.v2Files id).getD []) (normalizePathV2 toPath) = false →
      (((jsGet st.v2Files id).getD []).map (·.1)).Nodup →
      statsOk st q = true →
      statsOk (renamePathV2 st fromPath toPath t).1 q = true) :=
  ⟨statsOk_writeFile, statsOk_deletePath, statsOk_clear, statsOk_createProject,
   fun st fromPath toPath t id r q hact hsrc hdst hnd h =>
     statsOk_renamePath_file st fromPath toPath t id r q hact hsrc hdst hnd h⟩

theorem c10_stats_invariant_amended_witness :
    statsOk (renamePathV2 (writeFileV2 (v2CreateProject emptyFacade "p1" "Demo"
        false 0).1 "x.txt" "hi" none 1).1 "x.txt" "z.txt" 2).1 "p1" = true :=
  c10_stats_invariant_amended.2.2.2.2
    (writeFileV2 (v2CreateProject emptyFacade "p1" "Demo" false 0).1
      "x.txt" "hi" none 1).1
    "x.txt" "z.txt" 2 "p1"
    { projectId := "p1", path := "x.txt", content := "hi", contentType := none,
      size := 2, updatedAt := 1 }
    "p1" (by decide) (by decide) (by decide) (by decide) (by decide)

/-! ### Claim theorems about the Event Bus emissions (C8) -/

/-- C8 (counterexample): `clear` on the v2 path empties the active
project's file map — a real state change — yet emits no Event Bus event
at all (only the internal subscriber `notify`). -/
theorem c8_counterexample :
    (clearV2 (writeFileV2 (v2CreateProject emptyFacade "p1" "Demo" false 0).1
        "a.txt" "hi" none 1).1 2).2 = [] ∧
      ¬ (clearV2 (writeFileV2 (v2CreateProject emptyFacade "p1" "Demo" false 0).1
        "a.txt" "hi" none 1).1 2).1 =
        (writeFileV2 (v2CreateProject emptyFacade "p1" "Demo" false 0).1
          "a.txt" "hi" none 1).1 :=
  ⟨by decide, by decide⟩

/-- C8 (amended): the exact Event Bus emissions of the v2 mutating
facade operations — `createProject` emits `project:listChanged` and
`project:activeChanged`; `renameProject` of an existing id emits
`project:listChanged`; `deleteProject` emits `project:listChanged` and
`project:activeChanged`; `setActiveProject` emits
`project:activeChanged`; `setActiveFilePath` (active project with cached
doc) emits `project:metaChanged`; `writeFile` emits `file:created` for a
new path and `file:updated` otherwise; `createFolder` emits
`file:created` exactly when it records a new explicit dir (and changes
nothing otherwise); `deletePath` of a file emits `file:deleted`;
`renamePath` of a file emits `file:moved`; every payload carries the
project id and affected path(s). `clear` emits nothing, contrary to the
original claim (see the counterexample). -/
theorem c8_event_census :
    (∀ st newId name ws t, (v2CreateProject st newId name ws t).2 =
      [FsEvent.projectListChanged
        (getProjectListV2 (v2CreateProject st newId name ws t).1),
       FsEvent.projectActiveChanged (some newId)]) ∧
    (∀ st id newName t e, st.v2Index.find? (fun x => x.id = id) = some e →
      (renameProjectV2 st id newName t).2 =
        [FsEvent.projectListChanged
          (getProjectListV2 (renameProjectV2 st id newName t).1)]) ∧
    (∀ st id, (deleteProjectV2 st id).2 =
      [FsEvent.projectListChanged (getProjectListV2 (deleteProjectV2 st id).1),
       FsEvent.projectActiveChanged
         (deleteProjectV2 st id).1.v2ActiveProjectId]) ∧
    (∀ st id t, (setActiveProjectV2 st id t).2 =
      [FsEvent.projectActiveChanged id]) ∧
    (∀ st path t id doc, st.v2ActiveProjectId = some id →
      jsGet st.v2Docs id = some doc →
      ∃ ap, (setActiveFilePathV2 st path t).2 =
        [FsEvent.projectMetaChanged id ap]) ∧
    (∀ st path content pid t id, resolveProjectId st pid = some id →
      (writeFileV2 st path content pid t).2 =
        [match jsGet ((jsGet st.v2Files id).getD []) (normalizePathV2 path) with
         | none => FsEvent.fileCreated id (normalizePathV2 path)
         | some _ =>
           FsEvent.fileUpdated id (normalizePathV2 path) content.length]) ∧
    (∀ st path t id doc, st.v2ActiveProjectId = some id →
      jsGet st.v2Docs id = some doc →
      ¬ normalizePathV2 path ∈
        dedupKeepFirst (doc.metadata.explicitDirs.map normalizePathV2) →
      (createFolderV2 st path t).2 =
        [FsEvent.fileCreated id (normalizePathV2 path)]) ∧
    (∀ st path t id doc, st.v2ActiveProjectId = some id →
      jsGet st.v2Docs id = some doc →
      normalizePathV2 path ∈
        dedupKeepFirst (doc.metadata.explicitDirs.map normalizePathV2) →
      createFolderV2 st path t = (st, [])) ∧
    (∀ st path t id, st.v2ActiveProjectId = some id →
      jsHas ((jsGet st.v2Files id).getD []) (normalizePathV2 path) = true →
      (deletePathV2 st path t).2 =
        [FsEvent.fileDeleted id (normalizePathV2 path)]) ∧
    (∀ st fromPath toPath t id r, st.v2ActiveProjectId = some id →
      ¬ normalizePathV2 fromPath = normalizePathV2 toPath →
      jsGet ((jsGet st.v2Files id).getD []) (normalizePathV2 fromPath) = some r →
      (renamePathV2 st fromPath toPath t).2 =
        [FsEvent.fileMoved id (normalizePathV2 fromPath)
          (normalizePathV2 toPath)]) ∧
    (∀ st t, (clearV2 st t).2 = []) := by
  refine ⟨fun st newId name ws t => rfl, ?_, fun st id => rfl,
    fun st id t => rfl, ?_, ?_, ?_, ?_, ?_, ?_, ?_⟩
  · intro st id newName t e he
    unfold renameProjectV2
    rw [he]
    simp
  · intro st path t id doc hact hdoc
    unfold setActiveFilePathV2
    rw [hact]
    simp only [hdoc]
    exact ⟨_, rfl⟩
  · intro st path content pid t id hres
    unfold writeFileV2
    rw [hres]
  · intro st path t id doc hact hdoc hnot
    unfold createFolderV2
    rw [hact]
    simp only [hdoc]
    rw [if_neg hnot]
  · intro st path t id doc hact hdoc hmem
    unfold createFolderV2
    rw [hact]
    simp only [hdoc]
    rw [if_pos hmem]
  · intro st path t id hact hbr
    unfold deletePathV2
    rw [hact]
    simp only [hbr, if_true]
    rfl
  · intro st fromPath toPath t id r hact hne hsrc
    have hhas : jsHas ((jsGet st.v2Files id).getD [])
        (normalizePathV2 fromPath) = true := by
      unfold jsHas
      rw [hsrc]
      rfl
    unfold renamePathV2
    rw [hact]
    simp only [if_neg hne, hhas, if_true, hsrc]
    rfl
  · intro st t
    cases hact : st.v2ActiveProjectId with
    | none => unfold clearV2; rw [hact]
    | some id => unfold clearV2; rw [hact]

theorem c8_event_census_witness :
    (writeFileV2 (v2CreateProject emptyFacade "p1" "Demo" false 0).1
        "a.txt" "hi" none 1).2 = [FsEvent.fileCreated "p1" "a.txt"] ∧
      (clearV2 (v2CreateProject emptyFacade "p1" "Demo" false 0).1 5).2 = [] := by
  refine ⟨?_, c8_event_census.2.2.2.2.2.2.2.2.2.2 _ 5⟩
  have h := c8_event_census.2.2.2.2.2.1
    (v2CreateProject emptyFacade "p1" "Demo" false 0).1
    "a.txt" "hi" none 1 "p1" (by decide)
  rw [h]
  decide

/-! ### Claim theorems about the chat segment log (C5) -/

theorem jsGet_single_self {κ α : Type} [DecidableEq κ] (k : κ) (v : α) :
    jsGet [(k, v)] k = some v := by
  rw [jsGet_cons, if_pos rfl]

theorem jsSet_nil {κ α : Type} [DecidableEq κ] (k : κ) (v : α) :
    jsSet ([] : List (κ × α)) k v = [(k, v)] := rfl

theorem jsSet_single_self {κ α : Type} [DecidableEq κ] (k : κ) (v w : α) :
    jsSet [(k, v)] k w = [(k, w)] := by
  unfold jsSet jsHas
  rw [jsGet_single_self]
  simp

/-- Appending one message to an empty chat store creates segment 0 with
that single message. -/
theorem appendMessage_empty {μ : Type} (pid : String) (m : μ) (tnow : Nat) :
    appendMessageV2 (emptyChatStore μ) pid m tnow =
      { chatMeta :=
          [(pid,
            { projectId := pid, totalMessages := 1, segments := 1,
              segmentSize := 100, lastUpdated := tnow })],
        chatSegs := [((pid, 0), [m])] } := by
  unfold appendMessageV2 emptyChatStore getChatSegment putChatSegment putChatMeta
    SEGMENT_SIZE_DEFAULT
  simp [jsGet, jsSet_nil, jsSet_single_self]

/-- Appending to a single non-full segment extends that segment in
place. -/
theorem appendMessage_partial {μ : Type} (pid : String) (m : μ) (tnow : Nat)
    (xs : List μ) (hlen : xs.length ≤ 99) :
    appendMessageV2
      { chatMeta :=
          [(pid,
            { projectId := pid, totalMessages := xs.length, segments := 1,
              segmentSize := 100, lastUpdated := tnow })],
        chatSegs := [((pid, 0), xs)] } pid m tnow =
      { chatMeta :=
          [(pid,
            { projectId := pid, totalMessages := xs.length + 1, segments := 1,
              segmentSize := 100, lastUpdated := tnow })],
        chatSegs := [((pid, 0), xs ++ [m])] } := by
  unfold appendMessageV2 getChatSegment putChatSegment putChatMeta
    SEGMENT_SIZE_DEFAULT
  have hroll : ¬ (100 ≤ xs.length) := by omega
  simp [jsGet_single_self, jsSet_single_self, hroll]

/-- Appending to a full segment 0 allocates segment 1 and leaves segment
0 untouched (append-only per segment boundary). -/
theorem appendMessage_rollover {μ : Type} (pid : String) (m : μ) (tnow : Nat)
    (xs : List μ) (hlen : xs.length = 100) :
    appendMessageV2
      { chatMeta :=
          [(pid,
            { projectId := pid, totalMessages := xs.length, segments := 1,
              segmentSize := 100, lastUpdated := tnow })],
        chatSegs := [((pid, 0), xs)] } pid m tnow =
      { chatMeta :=
          [(pid,
            { projectId := pid, totalMessages := xs.length + 1, segments := 2,
              segmentSize := 100, lastUpdated := tnow })],
        chatSegs := [((pid, 0), xs), ((pid, 1), [m])] } := by
  unfold appendMessageV2 getChatSegment putChatSegment putChatMeta
    SEGMENT_SIZE_DEFAULT
  have hroll : 100 ≤ xs.length := by omega
  simp [jsGet, jsSet, jsHas, hroll]

/-- Appending up to 100 messages to an empty chat store keeps everything
in segment 0 with `meta.segments = 1`. -/
theorem appendAll_single_segment {μ : Type} (pid : String) (tnow : Nat) :
    ∀ xs : List μ, ¬ xs = [] → xs.length ≤ 100 →
      appendAllV2 (emptyChatStore μ) pid xs tnow =
        { chatMeta :=
            [(pid,
              { projectId := pid, totalMessages := xs.length, segments := 1,
                segmentSize := 100, lastUpdated := tnow })],
          chatSegs := [((pid, 0), xs)] } := by
  intro xs
  induction xs using List.reverseRecOn with
  | nil => intro h _; exact absurd rfl h
  | append_singleton ys m ih =>
    intro _ hlen
    have hsplit : appendAllV2 (emptyChatStore μ) pid (ys ++ [m]) tnow =
        appendMessageV2 (appendAllV2 (emptyChatStore μ) pid ys tnow) pid m tnow := by
      unfold appendAllV2
      rw [List.foldl_append]
      rfl
    cases ys with
    | nil =>
      rw [hsplit]
      show appendMessageV2 (emptyChatStore μ) pid m tnow = _
      rw [appendMessage_empty]
      simp
    | cons y ys2 =>
      have hlen2 : (y :: ys2).length ≤ 99 := by
        simp only [List.length_append, List.length_cons, List.length_nil] at hlen ⊢
        omega
      rw [hsplit, ih (by simp) (by omega),
        appendMessage_partial pid m tnow (y :: ys2) hlen2]
      simp

/-- C5: starting from an empty chat history with the default segment
size 100, appending 101 messages one at a time yields meta with
`segments = 2` and `totalMessages = 101`, segment 0 holding exactly the
first 100 messages in order, segment 1 holding the 101st; segment 0 is
identical to its value at the moment it became full (it is never
rewritten afterwards). -/
theorem c5_segment_rollover (pid : String) (msgs : List Nat) (tnow : Nat)
    (h : msgs.length = 101) :
    ((jsGet (appendAllV2 (emptyChatStore Nat) pid msgs tnow).chatMeta pid).map
        (·.segments)) = some 2 ∧
    ((jsGet (appendAllV2 (emptyChatStore Nat) pid msgs tnow).chatMeta pid).map
        (·.totalMessages)) = some 101 ∧
    getChatSegment (appendAllV2 (emptyChatStore Nat) pid msgs tnow) pid 0 =
      msgs.take 100 ∧
    getChatSegment (appendAllV2 (emptyChatStore Nat) pid msgs tnow) pid 1 =
      msgs.drop 100 ∧
    getChatSegment (appendAllV2 (emptyChatStore Nat) pid msgs tnow) pid 0 =
      getChatSegment
        (appendAllV2 (emptyChatStore Nat) pid (msgs.take 100) tnow) pid 0 := by
  have htake : (msgs.take 100).length = 100 := by
    rw [List.length_take]
    omega
  have hdrop1 : (msgs.drop 100).length = 1 := by
    rw [List.length_drop]
    omega
  obtain ⟨m, hm⟩ : ∃ m, msgs.drop 100 = [m] := by
    rcases hd : msgs.drop 100 with _ | ⟨a, rest⟩
    · rw [hd] at hdrop1; simp at hdrop1
    · rw [hd] at hdrop1
      simp only [List.length_cons, Nat.add_left_eq_self,
        List.length_eq_zero] at hdrop1
      exact ⟨a, by rw [hdrop1]⟩
  have hsplit : appendAllV2 (emptyChatStore Nat) pid msgs tnow =
      appendMessageV2 (appendAllV2 (emptyChatStore Nat) pid (msgs.take 100) tnow)
        pid m tnow := by
    conv_lhs => rw [show msgs = msgs.take 100 ++ [m] from by
      conv_lhs => rw [← List.take_append_drop 100 msgs]
      rw [hm]]
    unfold appendAllV2
    rw [List.foldl_append]
    rfl
  have hA := appendAll_single_segment pid tnow (msgs.take 100)
    (by intro hnil; rw [hnil] at htake; simp at htake) (by omega)
  rw [hsplit, hA, appendMessage_rollover pid m tnow _ htake]
  refine ⟨?_, ?_, ?_, ?_, ?_⟩
  · rw [jsGet_single_self]
    rfl
  · rw [jsGet_single_self]
    simp [htake]
  · unfold getChatSegment
    rw [jsGet_cons, if_pos rfl]
    rfl
  · unfold getChatSegment
    rw [jsGet_cons, if_neg (by simp), jsGet_single_self]
    simp [hm]
  · simp [getChatSegment, jsGet_cons, jsGet_single_self]

theorem c5_segment_rollover_witness :
    ((jsGet (appendAllV2 (emptyChatStore Nat) "p" (List.range 101) 0).chatMeta
        "p").map (·.segments)) = some 2 ∧
    ((jsGet (appendAllV2 (emptyChatStore Nat) "p" (List.range 101) 0).chatMeta
        "p").map (·.totalMessages)) = some 101 ∧
    getChatSegment (appendAllV2 (emptyChatStore Nat) "p" (List.range 101) 0)
      "p" 0 = (List.range 101).take 100 ∧
    getChatSegment (appendAllV2 (emptyChatStore Nat) "p" (List.range 101) 0)
      "p" 1 = (List.range 101).drop 100 ∧
    getChatSegment (appendAllV2 (emptyChatStore Nat) "p" (List.range 101) 0)
      "p" 0 =
      getChatSegment (appendAllV2 (emptyChatStore Nat) "p"
        ((List.range 101).take 100) 0) "p" 0 :=
  c5_segment_rollover "p" (List.range 101) 0 (by simp)

/-! ### The migration monad: equation lemmas -/

theorem bind_eq_migBind {α β : Type} (m : MigM α) (f : α → MigM β) :
    m >>= f = migBind m f := rfl

theorem pure_eq_migPure {α : Type} (a : α) : (pure a : MigM α) = migPure a := rfl

theorem migBind_ok {α β : Type} {m : MigM α} {f : α → MigM β} {s s1 : V2Store}
    {a : α} (h : m s = (Except.ok a, s1)) : migBind m f s = f a s1 := by
  unfold migBind
  rw [h]

theorem migBind_err {α β : Type} {m : MigM α} {f : α → MigM β} {s s1 : V2Store}
    {e : String} (h : m s = (Except.error e, s1)) :
    migBind m f s = (Except.error e, s1) := by
  unfold migBind
  rw [h]

theorem migCatch_ok {α : Type} {m : MigM α} {h : String → MigM α} {s s1 : V2Store}
    {a : α} (hm : m s = (Except.ok a, s1)) : migCatch m h s = (Except.ok a, s1) := by
  unfold migCatch
  rw [hm]

theorem migCatch_err {α : Type} {m : MigM α} {h : String → MigM α} {s s1 : V2Store}
    {e : String} (hm : m s = (Except.error e, s1)) : migCatch m h s = h e s1 := by
  unfold migCatch
  rw [hm]

theorem prim_ok {α : Type} {fs : FailSpec} {op : StoreOp}
    {act : V2Store → α × V2Store} (h : fs op = false) (s : V2Store) :
    prim fs op act s = (Except.ok (act s).1, (act s).2) := by
  unfold prim
  rw [h]
  rfl

theorem prim_err {α : Type} {fs : FailSpec} {op : StoreOp}
    {act : V2Store → α × V2Store} (h : fs op = true) (s : V2Store) :
    prim fs op act s = (Except.error "storage failure", s) := by
  unfold prim
  rw [h]
  rfl

/-! ### Schema-version preservation of the migration operations -/

theorem presVer_migPure {α : Type} (a : α) : PresVer (migPure a) := fun _ => rfl

theorem presVer_migThrow {α : Type} (e : String) :
    PresVer (migThrow (α := α) e) := fun _ => rfl

theorem presVer_migBind {α β : Type} {m : MigM α} {f : α → MigM β}
    (hm : PresVer m) (hf : ∀ a, PresVer (f a)) : PresVer (migBind m f) := by
  intro s
  have hms := hm s
  unfold migBind
  rcases h : m s with ⟨r, s1⟩
  rw [h] at hms
  cases r with
  | ok a => exact (hf a s1).trans hms
  | error e => exact hms

theorem presVer_migCatch {α : Type} {m : MigM α} {h : String → MigM α}
    (hm : PresVer m) (hh : ∀ e, PresVer (h e)) : PresVer (migCatch m h) := by
  intro s
  have hms := hm s
  unfold migCatch
  rcases hr : m s with ⟨r, s1⟩
  rw [hr] at hms
  cases r with
  | ok a => exact hms
  | error e => exact (hh e s1).trans hms

theorem presVer_ite {α : Type} {c : Prop} [Decidable c] {m1 m2 : MigM α}
    (h1 : PresVer m1) (h2 : PresVer m2) : PresVer (if c then m1 else m2) := by
  by_cases h : c
  · rw [if_pos h]; exact h1
  · rw [if_neg h]; exact h2

theorem presVer_prim {α : Type} (fs : FailSpec) (op : StoreOp)
    (act : V2Store → α × V2Store)
    (hact : ∀ s, ((act s).2).schemaVersion = s.schemaVersion) :
    PresVer (prim fs op act) := by
  intro s
  unfold prim
  by_cases h : fs op
  · rw [if_pos h]
  · rw [if_neg h]; exact hact s

theorem presVer_getSchemaVersionM (fs : FailSpec) :
    PresVer (getSchemaVersionM fs) :=
  presVer_prim _ _ _ (fun _ => rfl)

theorem presVer_openDbM (fs : FailSpec) : PresVer (openDbM fs) :=
  presVer_prim _ _ _ (fun _ => rfl)

theorem presVer_setActiveProjectIdM (fs : FailSpec) (id : Option String) :
    PresVer (setActiveProjectIdM fs id) :=
  presVer_prim _ _ _ (fun _ => rfl)

theorem presVer_setProjectsIndexM (fs : FailSpec) (l : List ProjectMetaIndexItem) :
    PresVer (setProjectsIndexM fs l) :=
  presVer_prim _ _ _ (fun _ => rfl)

theorem presVer_kvGetM (fs : FailSpec) (k : String) : PresVer (kvGetM fs k) :=
  presVer_prim _ _ _ (fun _ => rfl)

theorem presVer_kvSetM (fs : FailSpec) (k : String) (v : KVal) :
    PresVer (kvSetM fs k v) :=
  presVer_prim _ _ _ (fun _ => rfl)

theorem presVer_idbPutProjectM (fs : FailSpec) (doc : ProjectDoc) :
    PresVer (idbPutProjectM fs doc) :=
  presVer_prim _ _ _ (fun _ => rfl)

theorem presVer_idbPutFileM (fs : FailSpec) (pid : String) (r : V2FileRecord) :
    PresVer (idbPutFileM fs pid r) :=
  presVer_prim _ _ _ (fun _ => rfl)

theorem presVer_idbPutChatMetaM (fs : FailSpec) (pid : String) (meta : V2ChatMeta) :
    PresVer (idbPutChatMetaM fs pid meta) :=
  presVer_prim _ _ _ (fun _ => rfl)

theorem presVer_idbPutChatSegM (fs : FailSpec) (pid : String) (i : Nat)
    (msgs : List Nat) : PresVer (idbPutChatSegM fs pid i msgs) :=
  presVer_prim _ _ _ (fun _ => rfl)

theorem presVer_copyMigFiles (env : MigEnv) (fs : FailSpec) (v1Id v2Id : String)
    (tnow : Nat) :
    ∀ (paths : List String) (doc : ProjectDoc),
      PresVer (copyMigFiles env fs v1Id v2Id tnow doc paths) := by
  intro paths
  induction paths with
  | nil => intro doc; exact presVer_migPure doc
  | cons p rest ih =>
    intro doc
    refine presVer_migBind (presVer_migCatch ?_ (fun _ => presVer_migPure _))
      (fun d1 => ih d1)
    exact presVer_migBind (presVer_idbPutFileM _ _ _) (fun _ => presVer_migPure _)

theorem presVer_copyChatSegs (env : MigEnv) (fs : FailSpec) (v1Id v2Id : String) :
    ∀ (n i : Nat), PresVer (copyChatSegs env fs v1Id v2Id i n) := by
  intro n
  induction n with
  | zero => intro i; exact presVer_migPure ()
  | succ n ih =>
    intro i
    exact presVer_migBind (presVer_idbPutChatSegM _ _ _ _) (fun _ => ih (i + 1))

theorem presVer_copyMigChat (env : MigEnv) (fs : FailSpec) (v1Id v2Id : String)
    (tnow : Nat) : PresVer (copyMigChat env fs v1Id v2Id tnow) := by
  refine presVer_migCatch ?_ (fun _ => presVer_migPure ())
  cases v1ReadChatMeta env v1Id with
  | none => exact presVer_migPure ()
  | some cm =>
    exact presVer_migBind (presVer_idbPutChatMetaM _ _ _)
      (fun _ => presVer_copyChatSegs env fs v1Id v2Id _ 0)

theorem presVer_migEnsureV2Id (fs : FailSpec) (v1Id : String) (m : Option KVal) :
    PresVer (migEnsureV2Id fs v1Id m) := by
  cases m with
  | none =>
    exact presVer_migBind (presVer_kvSetM _ _ _) (fun _ => presVer_migPure _)
  | some kv =>
    cases kv with
    | s v =>
      refine presVer_ite (presVer_migPure v) ?_
      exact presVer_migBind (presVer_kvSetM _ _ _) (fun _ => presVer_migPure _)
    | b v =>
      exact presVer_migBind (presVer_kvSetM _ _ _) (fun _ => presVer_migPure _)

theorem presVer_migrateProject (env : MigEnv) (fs : FailSpec) (tnow : Nat)
    (v1Id name : String) : PresVer (migrateProject env fs tnow v1Id name) := by
  refine presVer_migBind (presVer_kvGetM fs _) (fun done => ?_)
  refine presVer_ite (presVer_migPure ()) ?_
  refine presVer_migBind (presVer_kvGetM fs _) (fun m => ?_)
  refine presVer_migBind (presVer_migEnsureV2Id fs v1Id m) (fun v2Id => ?_)
  refine presVer_migBind (presVer_copyMigFiles env fs v1Id v2Id tnow _ _)
    (fun doc2 => ?_)
  refine presVer_migBind (presVer_copyMigChat env fs v1Id v2Id tnow) (fun _ => ?_)
  exact presVer_migBind (presVer_idbPutProjectM _ _)
    (fun _ => presVer_kvSetM _ _ _)

theorem presVer_migLoop (env : MigEnv) (fs : FailSpec) (tnow : Nat) :
    ∀ (l : List ProjectIndexEntry) (dedup : List (String × ProjectMetaIndexItem)),
      PresVer (migLoop env fs tnow l dedup) := by
  intro l
  induction l with
  | nil => intro dedup; exact presVer_migPure dedup
  | cons item rest ih =>
    intro dedup
    exact presVer_migBind (presVer_migrateProject env fs tnow item.id _)
      (fun _ => ih _)

/-! ### Error runs leave the schema version untouched -/

theorem errVer_of_presVer {α : Type} {m : MigM α} (h : PresVer m) :
    ErrVerUnchanged m := fun s _ _ => h s

theorem errVer_migBind {α β : Type} {m : MigM α} {f : α → MigM β}
    (hm : PresVer m) (hf : ∀ a, ErrVerUnchanged (f a)) :
    ErrVerUnchanged (migBind m f) := by
  intro s e herr
  have hms := hm s
  unfold migBind at herr ⊢
  rcases h : m s with ⟨r, s1⟩
  rw [h] at herr hms
  cases r with
  | ok a => exact (hf a s1 e herr).trans hms
  | error e2 => exact hms

theorem errVer_ite {α : Type} {c : Prop} [Decidable c] {m1 m2 : MigM α}
    (h1 : ErrVerUnchanged m1) (h2 : ErrVerUnchanged m2) :
    ErrVerUnchanged (if c then m1 else m2) := by
  by_cases h : c
  · rw [if_pos h]; exact h1
  · rw [if_neg h]; exact h2

theorem errVer_setSchemaVersionM (fs : FailSpec) (v : Int) :
    ErrVerUnchanged (setSchemaVersionM fs v) := by
  intro s e herr
  by_cases h : fs StoreOp.setSchemaVersionOp
  · rw [show setSchemaVersionM fs v s = (Except.error "storage failure", s) from
      prim_err h s]
  · rw [show setSchemaVersionM fs v s =
        (Except.ok (), { s with schemaVersion := some v }) from prim_ok (by
          rwa [Bool.not_eq_true] at h) s] at herr
    cases herr

theorem errVer_migBody (env : MigEnv) (fs : FailSpec) (tnow : Nat) :
    ErrVerUnchanged (migBody env fs tnow) := by
  refine errVer_migBind (presVer_getSchemaVersionM fs) (fun v => ?_)
  refine errVer_ite (errVer_of_presVer (presVer_migPure ())) ?_
  refine errVer_migBind (presVer_openDbM fs) (fun _ => ?_)
  refine errVer_migBind (presVer_migLoop env fs tnow env.v1Index []) (fun ded => ?_)
  refine errVer_migBind (presVer_setProjectsIndexM fs _) (fun _ => ?_)
  refine errVer_migBind (presVer_setActiveProjectIdM fs _) (fun _ => ?_)
  exact errVer_setSchemaVersionM fs 2

theorem errVer_migrateToV2IfNeeded (env : MigEnv) (fs : FailSpec) (tnow : Nat) :
    ErrVerUnchanged (migrateToV2IfNeeded env fs tnow) := by
  intro s e herr
  unfold migrateToV2IfNeeded migCatch at herr ⊢
  rcases hb : migBody env fs tnow s with ⟨r, s1⟩
  rw [hb] at herr
  cases r with
  | ok a => simp at herr
  | error e2 =>
    have h2 := errVer_migBody env fs tnow s e2 (by rw [hb])
    rw [hb] at h2
    exact h2

/-! ### Runs that always succeed -/

theorem migOk_migPure {α : Type} (a : α) : MigOk (migPure a) :=
  fun s => ⟨a, s, rfl⟩

theorem migOk_migBind {α β : Type} {m : MigM α} {f : α → MigM β}
    (hm : MigOk m) (hf : ∀ a, MigOk (f a)) : MigOk (migBind m f) := by
  intro s
  obtain ⟨a, s1, h1⟩ := hm s
  obtain ⟨b, s2, h2⟩ := hf a s1
  refine ⟨b, s2, ?_⟩
  rw [migBind_ok h1]
  exact h2

theorem migOk_migCatch {α : Type} {m : MigM α} {h : String → MigM α}
    (hh : ∀ e, MigOk (h e)) : MigOk (migCatch m h) := by
  intro s
  rcases hm : m s with ⟨r, s1⟩
  cases r with
  | ok a => exact ⟨a, s1, migCatch_ok hm⟩
  | error e =>
    obtain ⟨a, s2, h2⟩ := hh e s1
    exact ⟨a, s2, by rw [migCatch_err hm]; exact h2⟩

theorem migOk_migCatch_of_ok {α : Type} {m : MigM α} {h : String → MigM α}
    (hm : MigOk m) : MigOk (migCatch m h) := by
  intro s
  obtain ⟨a, s1, h1⟩ := hm s
  exact ⟨a, s1, migCatch_ok h1⟩

theorem migOk_ite {α : Type} {c : Prop} [Decidable c] {m1 m2 : MigM α}
    (h1 : MigOk m1) (h2 : MigOk m2) : MigOk (if c then m1 else m2) := by
  by_cases h : c
  · rw [if_pos h]; exact h1
  · rw [if_neg h]; exact h2

theorem migOk_prim {α : Type} {fs : FailSpec} {op : StoreOp}
    (act : V2Store → α × V2Store) (h : fs op = false) : MigOk (prim fs op act) :=
  fun s => ⟨(act s).1, (act s).2, prim_ok h s⟩

theorem migOk_copyMigFiles (env : MigEnv) (fs : FailSpec) (v1Id v2Id : String)
    (tnow : Nat) :
    ∀ (paths : List String) (doc : ProjectDoc),
      MigOk (copyMigFiles env fs v1Id v2Id tnow doc paths) := by
  intro paths
  induction paths with
  | nil => intro doc; exact migOk_migPure doc
  | cons p rest ih =>
    intro doc
    exact migOk_migBind (migOk_migCatch (fun _ => migOk_migPure doc))
      (fun d1 => ih d1)

theorem migOk_copyMigChat (env : MigEnv) (fs : FailSpec) (v1Id v2Id : String)
    (tnow : Nat) : MigOk (copyMigChat env fs v1Id v2Id tnow) :=
  migOk_migCatch (fun _ => migOk_migPure ())

theorem migOk_migEnsureV2Id (fs : FailSpec) (v1Id : String) (m : Option KVal)
    (h7 : ∀ k, fs (StoreOp.kvSetOp k) = false) :
    MigOk (migEnsureV2Id fs v1Id m) := by
  cases m with
  | none =>
    exact migOk_migBind (migOk_prim _ (h7 _)) (fun _ => migOk_migPure _)
  | some kv =>
    cases kv with
    | s v =>
      refine migOk_ite (migOk_migPure v) ?_
      exact migOk_migBind (migOk_prim _ (h7 _)) (fun _ => migOk_migPure _)
    | b v =>
      exact migOk_migBind (migOk_prim _ (h7 _)) (fun _ => migOk_migPure _)

theorem migOk_migrateProject (env : MigEnv) (fs : FailSpec) (tnow : Nat)
    (v1Id name : String)
    (h6 : ∀ k, fs (StoreOp.kvGetOp k) = false)
    (h7 : ∀ k, fs (StoreOp.kvSetOp k) = false)
    (h8 : ∀ p, fs (StoreOp.putProjectOp p) = false) :
    MigOk (migrateProject env fs tnow v1Id name) := by
  refine migOk_migBind (migOk_prim _ (h6 _)) (fun done => ?_)
  refine migOk_ite (migOk_migPure ()) ?_
  refine migOk_migBind (migOk_prim _ (h6 _)) (fun m => ?_)
  refine migOk_migBind (migOk_migEnsureV2Id fs v1Id m h7) (fun v2Id => ?_)
  refine migOk_migBind (migOk_copyMigFiles env fs v1Id v2Id tnow _ _)
    (fun doc2 => ?_)
  refine migOk_migBind (migOk_copyMigChat env fs v1Id v2Id tnow) (fun _ => ?_)
  exact migOk_migBind (migOk_prim _ (h8 _)) (fun _ => migOk_prim _ (h7 _))

theorem migOk_migLoop (env : MigEnv) (fs : FailSpec) (tnow : Nat)
    (h6 : ∀ k, fs (StoreOp.kvGetOp k) = false)
    (h7 : ∀ k, fs (StoreOp.kvSetOp k) = false)
    (h8 : ∀ p, fs (StoreOp.putProjectOp p) = false) :
    ∀ (l : List ProjectIndexEntry) (dedup : List (String × ProjectMetaIndexItem)),
      MigOk (migLoop env fs tnow l dedup) := by
  intro l
  induction l with
  | nil => intro dedup; exact migOk_migPure dedup
  | cons item rest ih =>
    intro dedup
    exact migOk_migBind (migOk_migrateProject env fs tnow item.id _ h6 h7 h8)
      (fun _ => ih _)

theorem migOk_migBody (env : MigEnv) (fs : FailSpec) (tnow : Nat)
    (h1 : fs StoreOp.getSchemaVersionOp = false)
    (h2 : fs StoreOp.setSchemaVersionOp = false)
    (h3 : fs StoreOp.openDbOp = false)
    (h4 : fs StoreOp.setActiveProjectIdOp = false)
    (h5 : fs StoreOp.setProjectsIndexOp = false)
    (h6 : ∀ k, fs (StoreOp.kvGetOp k) = false)
    (h7 : ∀ k, fs (StoreOp.kvSetOp k) = false)
    (h8 : ∀ p, fs (StoreOp.putProjectOp p) = false) :
    MigOk (migBody env fs tnow) := by
  refine migOk_migBind (migOk_prim _ h1) (fun v => ?_)
  refine migOk_ite (migOk_migPure ()) ?_
  refine migOk_migBind (migOk_prim _ h3) (fun _ => ?_)
  refine migOk_migBind (migOk_migLoop env fs tnow h6 h7 h8 env.v1Index [])
    (fun ded => ?_)
  refine migOk_migBind (migOk_prim _ h5) (fun _ => ?_)
  refine migOk_migBind (migOk_prim _ h4) (fun _ => ?_)
  exact migOk_prim _ h2

/-! ### The deduplicated index computed by the project loop -/

theorem migLoop_value (env : MigEnv) (fs : FailSpec) (tnow : Nat) :
    ∀ (l : List ProjectIndexEntry) (dedup : List (String × ProjectMetaIndexItem))
      (s : V2Store) (d : List (String × ProjectMetaIndexItem)),
      (migLoop env fs tnow l dedup s).1 = Except.ok d →
        d = migLoopPure tnow l dedup := by
  intro l
  induction l with
  | nil =>
    intro dedup s d h
    simp only [migLoop, migPure] at h
    injection h with h2
    subst h2
    rfl
  | cons item rest ih =>
    intro dedup s d h
    simp only [migLoop, bind_eq_migBind] at h
    rcases hmp : migrateProject env fs tnow item.id
        (if item.name = "" then "Project" else item.name) s with ⟨rp, sp⟩
    cases rp with
    | error e =>
      rw [migBind_err hmp] at h
      simp at h
    | ok u =>
      rw [migBind_ok hmp] at h
      have h2 := ih _ _ _ h
      rw [h2]
      simp only [migLoopPure]

theorem jsGet_jsSet_isSome {κ α : Type} [DecidableEq κ] (m : List (κ × α))
    (k k0 : κ) (v : α) (h : (jsGet m k0).isSome = true) :
    (jsGet (jsSet m k v) k0).isSome = true := by
  by_cases hk : k0 = k
  · subst hk
    rw [jsGet_jsSet_self]
    rfl
  · rw [jsGet_jsSet_ne m k k0 v hk]
    exact h

theorem migLoopPure_isSome_mono (tnow : Nat) :
    ∀ (l : List ProjectIndexEntry) (dedup : List (String × ProjectMetaIndexItem))
      (k : String), (jsGet dedup k).isSome = true →
        (jsGet (migLoopPure tnow l dedup) k).isSome = true := by
  intro l
  induction l with
  | nil => intro dedup k h; exact h
  | cons item rest ih =>
    intro dedup k h
    simp only [migLoopPure]
    exact ih _ k (jsGet_jsSet_isSome _ _ _ _ h)

theorem migLoopPure_mem_isSome (tnow : Nat) :
    ∀ (l : List ProjectIndexEntry) (dedup : List (String × ProjectMetaIndexItem))
      (item : ProjectIndexEntry), item ∈ l →
        (jsGet (migLoopPure tnow l dedup) (coerceId item.id)).isSome = true := by
  intro l
  induction l with
  | nil => intro _ _ h; cases h
  | cons it rest ih =>
    intro dedup item hmem
    rcases List.mem_cons.mp hmem with h | h
    · subst h
      simp only [migLoopPure]
      exact migLoopPure_isSome_mono tnow rest _ _
        (by rw [jsGet_jsSet_self]; rfl)
    · simp only [migLoopPure]
      exact ih _ item h

theorem migLoopPure_id_inv (tnow : Nat) :
    ∀ (l : List ProjectIndexEntry) (dedup : List (String × ProjectMetaIndexItem)),
      (∀ k e, jsGet dedup k = some e → e.id = k) →
      ∀ k e, jsGet (migLoopPure tnow l dedup) k = some e → e.id = k := by
  intro l
  induction l with
  | nil => intro dedup h; exact h
  | cons item rest ih =>
    intro dedup h
    simp only [migLoopPure]
    apply ih
    intro k e hke
    by_cases hk : k = coerceId item.id
    · subst hk
      rw [jsGet_jsSet_self] at hke
      injection hke with h2
      subst h2
      rfl
    · rw [jsGet_jsSet_ne _ _ _ _ hk] at hke
      exact h k e hke

theorem jsGet_mem_map_snd {κ α : Type} [DecidableEq κ] :
    ∀ (m : List (κ × α)) (k : κ) (v : α),
      jsGet m k = some v → v ∈ m.map (fun kv => kv.2) := by
  intro m
  induction m with
  | nil => intro k v h; cases h
  | cons kv rest ih =>
    intro k v h
    rw [jsGet_cons] at h
    by_cases hk : kv.1 = k
    · rw [if_pos hk] at h
      injection h with h2
      subst h2
      exact List.mem_cons_self _ _
    · rw [if_neg hk] at h
      exact List.mem_cons_of_mem _ (ih k v h)

theorem migLoopPure_covers (tnow : Nat) (l : List ProjectIndexEntry)
    (item : ProjectIndexEntry) (hmem : item ∈ l) :
    coerceId item.id ∈
      ((migLoopPure tnow l []).map (fun kv => kv.2)).map (fun it => it.id) := by
  have h1 := migLoopPure_mem_isSome tnow l [] item hmem
  obtain ⟨e, he⟩ := Option.isSome_iff_exists.mp h1
  have hid : e.id = coerceId item.id :=
    migLoopPure_id_inv tnow l [] (by intro k e h; cases h) _ _ he
  exact List.mem_map.mpr ⟨e, jsGet_mem_map_snd _ _ _ he, hid⟩

/-! ### Inverting a successful migration run -/

theorem run_done_noop (env : MigEnv) (fs : FailSpec) (tnow : Nat) (s : V2Store)
    (hv : s.schemaVersion = some 2) (hg : fs StoreOp.getSchemaVersionOp = false) :
    migrateToV2IfNeeded env fs tnow s = (Except.ok (), s) := by
  have hgs : getSchemaVersionM fs s = (Except.ok s.schemaVersion, s) := prim_ok hg s
  have hbody : migBody env fs tnow s = (Except.ok (), s) := by
    unfold migBody
    simp only [bind_eq_migBind]
    rw [migBind_ok hgs]
    rw [if_pos hv]
    rfl
  unfold migrateToV2IfNeeded
  exact migCatch_ok hbody

theorem run_ok_inversion (env : MigEnv) (fs : FailSpec) (tnow : Nat) (s : V2Store)
    (hv2 : ¬ s.schemaVersion = some 2)
    (hok : (migrateToV2IfNeeded env fs tnow s).1 = Except.ok ()) :
    ((migrateToV2IfNeeded env fs tnow s).2).schemaVersion = some 2 ∧
    ((migrateToV2IfNeeded env fs tnow s).2).projectsIndex =
      (migLoopPure tnow env.v1Index []).map (fun kv => kv.2) ∧
    ((migrateToV2IfNeeded env fs tnow s).2).activeProjectId =
      mapActiveId env.v1ActiveId := by
  rcases hb : migBody env fs tnow s with ⟨r, sf⟩
  cases r with
  | error e =>
    have hrun : migrateToV2IfNeeded env fs tnow s =
        (Except.error ("[migration] " ++ e), sf) := (migCatch_err hb).trans rfl
    rw [hrun] at hok
    simp at hok
  | ok u =>
    cases u
    have hrun : migrateToV2IfNeeded env fs tnow s = (Except.ok (), sf) :=
      migCatch_ok hb
    unfold migBody at hb
    simp only [bind_eq_migBind] at hb
    cases hg : fs StoreOp.getSchemaVersionOp with
    | true =>
      have hgs : getSchemaVersionM fs s = (Except.error "storage failure", s) :=
        prim_err hg s
      rw [migBind_err hgs] at hb
      simp at hb
    | false =>
      have hgs : getSchemaVersionM fs s = (Except.ok s.schemaVersion, s) :=
        prim_ok hg s
      rw [migBind_ok hgs] at hb
      rw [if_neg hv2] at hb
      cases ho : fs StoreOp.openDbOp with
      | true =>
        have hod : openDbM fs s = (Except.error "storage failure", s) :=
          prim_err ho s
        rw [migBind_err hod] at hb
        simp at hb
      | false =>
        have hod : openDbM fs s = (Except.ok (), s) := prim_ok ho s
        rw [migBind_ok hod] at hb
        rcases hl : migLoop env fs tnow env.v1Index [] s with ⟨rl, sl⟩
        cases rl with
        | error e2 =>
          rw [migBind_err hl] at hb
          simp at hb
        | ok ded =>
          rw [migBind_ok hl] at hb
          cases hsi : fs StoreOp.setProjectsIndexOp with
          | true =>
            have hx : setProjectsIndexM fs (List.map (fun kv => kv.2) ded) sl =
                (Except.error "storage failure", sl) := prim_err hsi sl
            rw [migBind_err hx] at hb
            simp at hb
          | false =>
            have hx : setProjectsIndexM fs (List.map (fun kv => kv.2) ded) sl =
                (Except.ok (),
                  { sl with projectsIndex := List.map (fun kv => kv.2) ded }) :=
              prim_ok hsi sl
            rw [migBind_ok hx] at hb
            cases ha : fs StoreOp.setActiveProjectIdOp with
            | true =>
              have hy : setActiveProjectIdM fs (mapActiveId env.v1ActiveId)
                  { sl with projectsIndex := List.map (fun kv => kv.2) ded } =
                  (Except.error "storage failure",
                    { sl with projectsIndex := List.map (fun kv => kv.2) ded }) :=
                prim_err ha _
              rw [migBind_err hy] at hb
              simp at hb
            | false =>
              have hy : setActiveProjectIdM fs (mapActiveId env.v1ActiveId)
                  { sl with projectsIndex := List.map (fun kv => kv.2) ded } =
                  (Except.ok (),
                    { sl with projectsIndex := List.map (fun kv => kv.2) ded,
                              activeProjectId := mapActiveId env.v1ActiveId }) :=
                prim_ok ha _
              rw [migBind_ok hy] at hb
              cases hv : fs StoreOp.setSchemaVersionOp with
              | true =>
                have hz : setSchemaVersionM fs 2
                    { sl with projectsIndex := List.map (fun kv => kv.2) ded,
                              activeProjectId := mapActiveId env.v1ActiveId } =
                    (Except.error "storage failure",
                      { sl with projectsIndex := List.map (fun kv => kv.2) ded,
                                activeProjectId := mapActiveId env.v1ActiveId }) :=
                  prim_err hv _
                rw [hz] at hb
                simp at hb
              | false =>
                have hz : setSchemaVersionM fs 2
                    { sl with projectsIndex := List.map (fun kv => kv.2) ded,
                              activeProjectId := mapActiveId env.v1ActiveId } =
                    (Except.ok (),
                      { sl with projectsIndex := List.map (fun kv => kv.2) ded,
                                activeProjectId := mapActiveId env.v1ActiveId,
                                schemaVersion := some 2 }) :=
                  prim_ok hv _
                rw [hz] at hb
                injection hb with hb1 hb2
                subst hb2
                rw [hrun]
                refine ⟨rfl, ?_, rfl⟩
                have hded : ded = migLoopPure tnow env.v1Index [] :=
                  migLoop_value env fs tnow env.v1Index [] s ded (by rw [hl])
                rw [hded]

/-- C6 (counterexample): the claim says an error thrown while copying one
project does not abort the whole migration. But `migrateProject` is called
with no per-project try/catch, and its project-document write is not
protected either: with two v1 projects p1 and p2 where only the
project-document write of p1 fails, the whole run aborts with the tagged
error, project p2's file is never copied, and the schema version is never
written. -/
theorem c6_counterexample :
    (migrateToV2IfNeeded c6Env c6FailSpec 5 emptyV2Store).1 =
      Except.error "[migration] storage failure" ∧
    (jsGet ((migrateToV2IfNeeded c6Env c6FailSpec 5 emptyV2Store).2).files
      ("p2", "g.txt")).isSome = false ∧
    ((migrateToV2IfNeeded c6Env c6FailSpec 5 emptyV2Store).2).schemaVersion =
      none :=
  ⟨rfl, by decide, by decide⟩

/-- C6 (amended): only the per-file copy and the chat copy are
try/catch-protected, so exactly those failures are skipped: if every
fallible storage operation other than the file puts, chat-meta puts and
chat-segment puts succeeds, then the migration run never aborts — file
and chat write errors are swallowed per item and the run still reaches
its final commit, setting the schema version when it was not 2 yet. -/
theorem c6_per_item_copy_errors_skipped (env : MigEnv) (fs : FailSpec)
    (tnow : Nat)
    (h1 : fs StoreOp.getSchemaVersionOp = false)
    (h2 : fs StoreOp.setSchemaVersionOp = false)
    (h3 : fs StoreOp.openDbOp = false)
    (h4 : fs StoreOp.setActiveProjectIdOp = false)
    (h5 : fs StoreOp.setProjectsIndexOp = false)
    (h6 : ∀ k, fs (StoreOp.kvGetOp k) = false)
    (h7 : ∀ k, fs (StoreOp.kvSetOp k) = false)
    (h8 : ∀ p, fs (StoreOp.putProjectOp p) = false) :
    ∀ s : V2Store, ∃ s1 : V2Store,
      migrateToV2IfNeeded env fs tnow s = (Except.ok (), s1) ∧
      (¬ s.schemaVersion = some 2 → s1.schemaVersion = some 2) := by
  intro s
  have hok : MigOk (migrateToV2IfNeeded env fs tnow) :=
    migOk_migCatch_of_ok (migOk_migBody env fs tnow h1 h2 h3 h4 h5 h6 h7 h8)
  obtain ⟨a, s1, h⟩ := hok s
  cases a
  refine ⟨s1, h, ?_⟩
  intro hv2
  have hinv := run_ok_inversion env fs tnow s hv2 (by rw [h])
  rw [h] at hinv
  exact hinv.1

theorem c6_per_item_copy_errors_skipped_witness :
    (migrateToV2IfNeeded c6Env c6WitnessFailSpec 5 emptyV2Store).1 =
      Except.ok () := by
  obtain ⟨s1, h, _⟩ := c6_per_item_copy_errors_skipped c6Env c6WitnessFailSpec 5
    rfl rfl rfl rfl rfl (fun _ => rfl) (fun _ => rfl) (fun _ => rfl) emptyV2Store
  rw [h]

/-- C7: the schema-version marker is the migration's commit point.
(1) If the version already reads 2 (and the read succeeds), the run
returns immediately with the store untouched. (2) If the run ends in an
error, the schema version is unchanged, so a subsequent run starts again
from the initial check. (3) If a run from a not-yet-migrated store
succeeds, then the final store carries schema version 2, the
deduplicated v2 project index (every v1 index entry's coerced id is
present in it), and the mapped active-project pointer — i.e. version 2
is only ever written after every project was processed and the index and
active pointer were written. -/
theorem c7_commit_point (env : MigEnv) (fs : FailSpec) (tnow : Nat)
    (s : V2Store) :
    (s.schemaVersion = some 2 → fs StoreOp.getSchemaVersionOp = false →
      migrateToV2IfNeeded env fs tnow s = (Except.ok (), s)) ∧
    (∀ e, (migrateToV2IfNeeded env fs tnow s).1 = Except.error e →
      ((migrateToV2IfNeeded env fs tnow s).2).schemaVersion =
        s.schemaVersion) ∧
    ((migrateToV2IfNeeded env fs tnow s).1 = Except.ok () →
      ¬ s.schemaVersion = some 2 →
      ((migrateToV2IfNeeded env fs tnow s).2).schemaVersion = some 2 ∧
      ((migrateToV2IfNeeded env fs tnow s).2).projectsIndex =
        (migLoopPure tnow env.v1Index []).map (fun kv => kv.2) ∧
      ((migrateToV2IfNeeded env fs tnow s).2).activeProjectId =
        mapActiveId env.v1ActiveId ∧
      ∀ item ∈ env.v1Index, coerceId item.id ∈
        (((migrateToV2IfNeeded env fs tnow s).2).projectsIndex).map
          (fun it => it.id)) := by
  refine ⟨fun hv hg => run_done_noop env fs tnow s hv hg,
    fun e herr => errVer_migrateToV2IfNeeded env fs tnow s e herr,
    fun hok hv2 => ?_⟩
  obtain ⟨ha, hb, hc⟩ := run_ok_inversion env fs tnow s hv2 hok
  refine ⟨ha, hb, hc, ?_⟩
  intro item hmem
  rw [hb]
  exact migLoopPure_covers tnow env.v1Index item hmem

theorem c7_commit_point_witness :
    ((migrateToV2IfNeeded c6Env noFail 5 emptyV2Store).2).schemaVersion =
      some 2 ∧
    ((migrateToV2IfNeeded c6Env noFail 5 emptyV2Store).2).projectsIndex =
      (migLoopPure 5 c6Env.v1Index []).map (fun kv => kv.2) ∧
    ((migrateToV2IfNeeded c6Env noFail 5 emptyV2Store).2).activeProjectId =
      mapActiveId c6Env.v1ActiveId ∧
    coerceId "p1" ∈
      (((migrateToV2IfNeeded c6Env noFail 5 emptyV2Store).2).projectsIndex).map
        (fun it => it.id) := by
  have h := (c7_commit_point c6Env noFail 5 emptyV2Store).2.2 rfl (by decide)
  refine ⟨h.1, h.2.1, h.2.2.1, ?_⟩
  exact h.2.2.2
    { id := "p1", name := "One", createdAt := 0, lastOpenedAt := 0,
      activeFilePath := none, version := 1 } (by decide)

theorem c4_directory_delete_cascade_witness :
    jsGet ((jsGet (deletePathV2 (writeFileV2 (writeFileV2
        (v2CreateProject emptyFacade "p1" "Demo" false 0).1
        "a/b/c.txt" "1" none 1).1 "a/b/d.txt" "2" none 1).1
        "a/b" 2).1.v2Files "p1").getD []) "a/b/c.txt" = none ∧
    jsGet ((jsGet (deletePathV2 (writeFileV2 (writeFileV2
        (v2CreateProject emptyFacade "p1" "Demo" false 0).1
        "a/b/c.txt" "1" none 1).1 "a/b/d.txt" "2" none 1).1
        "a/b" 2).1.v2Files "p1").getD []) "a/b/d.txt" = none ∧
    jsGet ((jsGet (deletePathV2 (writeFileV2 (writeFileV2
        (v2CreateProject emptyFacade "p1" "Demo" false 0).1
        "a/b/c.txt" "1" none 1).1 "a/b/d.txt" "2" none 1).1
        "a" 2).1.v2Files "p1").getD []) "a/b/c.txt" = none ∧
    jsGet ((jsGet (deletePathV2 (writeFileV2 (writeFileV2
        (v2CreateProject emptyFacade "p1" "Demo" false 0).1
        "a/b/c.txt" "1" none 1).1 "a/b/d.txt" "2" none 1).1
        "a" 2).1.v2Files "p1").getD []) "a/b/d.txt" = none :=
  ⟨c4_directory_delete_cascade _ "a/b" "a/b/c.txt" 2 "p1"
     (by decide) (by decide) (by decide),
   c4_directory_delete_cascade _ "a/b" "a/b/d.txt" 2 "p1"
     (by decide) (by decide) (by decide),
   c4_directory_delete_cascade _ "a" "a/b/c.txt" 2 "p1"
     (by decide) (by decide) (by decide),
   c4_directory_delete_cascade _ "a" "a/b/d.txt" 2 "p1"
     (by decide) (by decide) (by decide)⟩

end Extendy
